import Mathlib

/-!
# so-shell: job table, child reaper, foreground monitor, redirections

A shallow embedding of `src/jobs.c` and of `do_redir` from `src/shell.c`.

* C `int` values are `Int`; no arithmetic in the modelled code can overflow.
* The pair `proc` / `nproc` of `job_t` is one list: `nproc` is its length.
* The pair `jobs` / `njobmax` is one list: `njobmax` is its length.
* The header `shell.h` is not among the modelled files, so the values of `ALL`,
  `FINISHED`, `RUNNING`, `STOPPED` are a parameter (`ShellH`).
-/

namespace SoShell

/-! ## Data model -/

/-- The state constants declared in `shell.h` (values not fixed here). -/
structure ShellH where
  ALL : Int
  FINISHED : Int
  RUNNING : Int
  STOPPED : Int
  deriving DecidableEq, Repr

/-- The four constants of `shell.h` denote four different integers. -/
def ShellH.Distinct (c : ShellH) : Prop :=
  c.RUNNING ≠ c.STOPPED ∧ c.RUNNING ≠ c.FINISHED ∧ c.STOPPED ≠ c.FINISHED ∧
  c.ALL ≠ c.RUNNING ∧ c.ALL ≠ c.STOPPED ∧ c.ALL ≠ c.FINISHED

instance (c : ShellH) : Decidable c.Distinct := by
  unfold ShellH.Distinct; infer_instance

/-- A concrete choice of the constants, used to evaluate the model. -/
def shellh : ShellH := { ALL := -1, FINISHED := 0, RUNNING := 1, STOPPED := 2 }

/-- Modelled from the spec: `FG` of `shell.h` (index 0 is the foreground slot). -/
def FG : Nat := 0

/-- Modelled from the spec: `BG` of `shell.h` (indices from 1 are background slots). -/
def BG : Nat := 1

/-- Terminal attributes (`struct termios`), abstract; `0` is the all-zero value. -/
abbrev termios := Nat

/-- `proc_t` of jobs.c. -/
structure proc_t where
  pid : Int
  state : Int
  exitcode : Int
  deriving DecidableEq, Repr

/-- `job_t` of jobs.c; `proc` holds the `nproc` process records, `command` is
`none` for a NULL pointer. -/
structure job_t where
  pgid : Int
  proc : List proc_t
  tmodes : termios
  state : Int
  command : Option String
  deriving DecidableEq, Repr

/-- The field `nproc`. -/
def job_t.nproc (job : job_t) : Nat := job.proc.length

/-- The value `memset(&jobs[k], 0, sizeof(job_t))` leaves in a slot. -/
def zero_job : job_t :=
  { pgid := 0, proc := [], tmodes := 0, state := 0, command := none }

/-! ## Wait status decoding (`<sys/wait.h>`, Linux encoding) -/

/-- `WTERMSIG(s)` is `s & 0x7f`. -/
def WTERMSIG (s : Int) : Int := s % 128

/-- `WEXITSTATUS(s)` is `(s & 0xff00) >> 8`. -/
def WEXITSTATUS (s : Int) : Int := (s / 256) % 256

/-- `WIFEXITED(s)` is `WTERMSIG(s) == 0`. -/
def WIFEXITED (s : Int) : Bool := WTERMSIG s == 0

/-- `WIFSIGNALED(s)` is `((signed char)((s & 0x7f) + 1) >> 1) > 0`. -/
def WIFSIGNALED (s : Int) : Bool :=
  let x := s % 128 + 1
  let sc := if 128 ≤ x then x - 256 else x
  decide (0 < sc / 2)

/-- `WIFSTOPPED(s)` is `(s & 0xff) == 0x7f`. -/
def WIFSTOPPED (s : Int) : Bool := s % 256 == 127

/-- `WIFCONTINUED(s)` is `s == 0xffff`. -/
def WIFCONTINUED (s : Int) : Bool := s == 65535

/-! ## Child reaper -/

/-- Lines 45-59 of jobs.c: the update of a live process record for the pid and
status returned by `waitpid`. -/
def update_proc (c : ShellH) (pid status : Int) (p : proc_t) : proc_t :=
  if pid = p.pid then
    if WIFCONTINUED status then { p with exitcode := -1, state := c.RUNNING }
    else if WIFSTOPPED status then { p with exitcode := -1, state := c.STOPPED }
    else if WIFEXITED status then { p with state := c.FINISHED, exitcode := status }
    else if WIFSIGNALED status then { p with state := c.FINISHED, exitcode := status }
    else { p with exitcode := -1 }
  else p

/-- The inner loop of `sigchld_handler` (lines 37-66) over the processes of one
job, from the current process on; the two booleans are `flag_running` and
`flag_stopped`. -/
def scan_procs (c : ShellH) (pid status : Int) :
    List proc_t → Bool → Bool → List proc_t × Bool × Bool
  | [], fr, fs => ([], fr, fs)
  | p :: ps, fr, fs =>
    if p.state = c.FINISHED then
      let r := scan_procs c pid status ps fr fs
      (p :: r.1, r.2)
    else
      let q := update_proc c pid status p
      let fr1 := if q.state = c.RUNNING then true else fr
      let fs1 := if q.state = c.RUNNING then fs
                 else if q.state = c.STOPPED then true else fs
      let r := scan_procs c pid status ps fr1 fs1
      (q :: r.1, r.2)

/-- The body of the loop over the slots (lines 33-75) for one slot. -/
def reap_job (c : ShellH) (pid status : Int) (job : job_t) : job_t :=
  let r := scan_procs c pid status job.proc false false
  { job with
    proc := r.1
    state := if r.2.1 then c.RUNNING else if r.2.2 then c.STOPPED else c.FINISHED }

/-- One round of the `while` loop of `sigchld_handler`: `waitpid` returned
`pid > 0` with `status`, and every slot is visited. -/
def reap (c : ShellH) (pid status : Int) (jobs : List job_t) : List job_t :=
  jobs.map (reap_job c pid status)

/-- Function `sigchld_handler`: `events` are the successive `(pid, status)`
results of `waitpid` until it returns a value `<= 0`. -/
def sigchld_handler (c : ShellH) (events : List (Int × Int)) (jobs : List job_t) :
    List job_t :=
  events.foldl (fun js e => reap c e.1 e.2 js) jobs

/-- The reduction of process states of the specification: RUNNING if some
process is RUNNING, otherwise STOPPED if some process is STOPPED, otherwise
FINISHED. -/
def reduction (c : ShellH) (ps : List proc_t) : Int :=
  if ps.any (fun p => decide (p.state = c.RUNNING)) then c.RUNNING
  else if ps.any (fun p => decide (p.state = c.STOPPED)) then c.STOPPED
  else c.FINISHED

/-- A process state is one of the three states of the data model. -/
def valid_state (c : ShellH) (s : Int) : Prop :=
  s = c.RUNNING ∨ s = c.STOPPED ∨ s = c.FINISHED

instance (c : ShellH) (s : Int) : Decidable (valid_state c s) := by
  unfold valid_state; infer_instance

/-! ## Shell state and environment -/

/-- Ways in which the modelled C code fails to return. -/
inductive Fault where
  /-- An `assert` does not hold: the program aborts. -/
  | assert_failed
  /-- A read or write outside an array (undefined behaviour). -/
  | out_of_bounds
  /-- `Sigsuspend` is reached and no further signal is delivered. -/
  | blocked
  /-- Function `app_error` ends the program. -/
  | app_error
  deriving DecidableEq, Repr

/-- Calls to the outside world, in program order. -/
inductive Effect where
  /-- A line written by `printf`. -/
  | print (line : String)
  /-- Call `Kill(pid, sig)`. -/
  | kill (pid sig : Int)
  /-- Call `Tcsetpgrp(tty_fd, pgid)`. -/
  | tcsetpgrp (pgid : Int)
  /-- Call `Tcsetattr(tty_fd, TCSADRAIN, &t)`. -/
  | tcsetattr (t : termios)
  deriving DecidableEq, Repr

/-- The globals of jobs.c together with the part of the environment they act on:
`tty` is the attribute value the terminal currently has, `tty_pgrp` its
foreground process group, `pgrp` the result of `getpgrp()`. -/
structure Shell where
  jobs : List job_t
  shell_tmodes : termios
  tty : termios
  tty_pgrp : Int
  pgrp : Int
  trace : List Effect
  deriving DecidableEq, Repr

/-- What one `Sigsuspend` brings: the attributes the foreground job left on the
terminal, and the `(pid, status)` pairs `waitpid` hands to `sigchld_handler`
(none if the signal was not SIGCHLD). -/
structure Wakeup where
  tty : termios
  events : List (Int × Int)
  deriving DecidableEq, Repr

/-- Conversion `%d` of `printf`. -/
def fmt_d (n : Int) : String := toString n

/-- Conversion `%s` of `printf`; glibc prints `(null)` for a NULL pointer. -/
def fmt_s : Option String → String
  | some s => s
  | none => "(null)"

/-- Call `printf` of one line. -/
def Shell.printf (line : String) (sh : Shell) : Shell :=
  { sh with trace := sh.trace ++ [Effect.print line] }

/-- Call `Kill(pid, sig)`. -/
def Kill (pid sig : Int) (sh : Shell) : Shell :=
  { sh with trace := sh.trace ++ [Effect.kill pid sig] }

/-- Call `Tcsetpgrp(tty_fd, pgid)`. -/
def Tcsetpgrp (pgid : Int) (sh : Shell) : Shell :=
  { sh with tty_pgrp := pgid, trace := sh.trace ++ [Effect.tcsetpgrp pgid] }

/-- Call `Tcsetattr(tty_fd, TCSADRAIN, &t)`: the terminal takes the value `t`. -/
def Tcsetattr (t : termios) (sh : Shell) : Shell :=
  { sh with tty := t, trace := sh.trace ++ [Effect.tcsetattr t] }

/-- Function `setfgpgrp`. -/
def setfgpgrp (pgid : Int) (sh : Shell) : Shell := Tcsetpgrp pgid sh

/-- Call `Sigsuspend(mask)`: signals are delivered and `sigchld_handler` runs. -/
def Sigsuspend (c : ShellH) (w : Wakeup) (sh : Shell) : Shell :=
  { sh with tty := w.tty, jobs := sigchld_handler c w.events sh.jobs }

/-- The lines printed so far. -/
def Shell.output (sh : Shell) : List String :=
  sh.trace.filterMap (fun e => match e with
    | Effect.print l => some l
    | _ => none)

/-! ## Job table -/

/-- Function `exitcode`: the exit code of `proc[nproc - 1]`. -/
def exitcode (job : job_t) : Except Fault Int :=
  match job.proc.getLast? with
  | some p => .ok p.exitcode
  | none => .error Fault.out_of_bounds

/-- The search loop of `allocjob` from slot `j` on. -/
def find_free : Nat → List job_t → Option Nat
  | _, [] => none
  | j, job :: rest => if job.pgid = 0 then some j else find_free (j + 1) rest

/-- Function `allocjob`: the index returned and the job table after the call. -/
def allocjob (jobs : List job_t) : Nat × List job_t :=
  match find_free BG (jobs.drop BG) with
  | some j => (j, jobs)
  | none => (jobs.length, jobs ++ [zero_job])

/-- Function `addjob`. -/
def addjob (c : ShellH) (pgid : Int) (bg : Bool) (sh : Shell) : Nat × Shell :=
  let r := if bg then allocjob sh.jobs else (FG, sh.jobs)
  let job : job_t :=
    { pgid := pgid, state := c.RUNNING, command := none, proc := [],
      tmodes := sh.shell_tmodes }
  (r.1, { sh with jobs := r.2.set r.1 job })

/-- Function `deljob`. -/
def deljob (c : ShellH) (job : job_t) : Except Fault job_t :=
  if job.state = c.FINISHED then
    .ok { job with pgid := 0, command := none, proc := [] }
  else .error Fault.assert_failed

/-- Function `movejob`. -/
def movejob (src dst : Nat) (jobs : List job_t) : Except Fault (List job_t) :=
  match jobs[dst]?, jobs[src]? with
  | some d, some s =>
    if d.pgid = 0 then .ok ((jobs.set dst s).set src zero_job)
    else .error Fault.assert_failed
  | _, _ => .error Fault.out_of_bounds

/-- Modelled from the spec: `strapp` of the support library, which appends a
string to the command text (allocating it when it is still NULL). -/
def strapp (cmd : Option String) (s : String) : Option String :=
  some (cmd.getD "" ++ s)

/-- Function `mkcommand`; `argv` without its terminating NULL. -/
def mkcommand (cmd : Option String) : List String → Except Fault (Option String)
  | [] => .error Fault.out_of_bounds
  | a :: rest =>
    let cmd1 := if cmd.isSome then strapp cmd " | " else cmd
    .ok (rest.foldl (fun acc s => strapp (strapp acc " ") s) (strapp cmd1 a))

/-- Function `addproc` (with `allocproc`). -/
def addproc (c : ShellH) (j : Nat) (pid : Int) (argv : List String) (sh : Shell) :
    Except Fault Shell :=
  match sh.jobs[j]? with
  | none => .error Fault.assert_failed
  | some job =>
    match mkcommand job.command argv with
    | .error e => .error e
    | .ok cmd =>
      let p : proc_t := { pid := pid, state := c.RUNNING, exitcode := -1 }
      let job1 : job_t := { job with proc := job.proc ++ [p], command := cmd }
      .ok { sh with jobs := sh.jobs.set j job1 }

/-- Function `jobstate`: the state returned, the value of `*statusp` after the
call, and the job table after the call. -/
def jobstate (c : ShellH) (j : Nat) (status : Int) (jobs : List job_t) :
    Except Fault (Int × Int × List job_t) :=
  match jobs[j]? with
  | none => .error Fault.assert_failed
  | some job =>
    if job.state = c.FINISHED then
      match exitcode job with
      | .error e => .error e
      | .ok code =>
        match deljob c job with
        | .error e => .error e
        | .ok job1 => .ok (job.state, code, jobs.set j job1)
    else .ok (job.state, status, jobs)

/-! ## Listing -/

/-- The body of the loop of `watchjobs` for slot `j`: the slot afterwards and
the lines printed. -/
def watch_slot (c : ShellH) (which : Int) (j : Nat) (job : job_t) :
    Except Fault (job_t × List String) :=
  if job.pgid = 0 then .ok (job, [])
  else if which = c.ALL ∨ which = job.state then
    if job.state = c.RUNNING then
      .ok (job, ["[" ++ fmt_d j ++ "] running '" ++ fmt_s job.command ++ "'\n"])
    else if job.state = c.STOPPED then
      .ok (job, ["[" ++ fmt_d j ++ "] suspended '" ++ fmt_s job.command ++ "'\n"])
    else if job.state = c.FINISHED then
      match exitcode job with
      | .error e => .error e
      | .ok exitc =>
        let line :=
          if WIFSIGNALED exitc then
            "[" ++ fmt_d j ++ "] killed '" ++ fmt_s job.command ++ "' by signal "
              ++ fmt_d (WTERMSIG exitc) ++ "\n"
          else
            "[" ++ fmt_d j ++ "] exited '" ++ fmt_s job.command ++ "', status="
              ++ fmt_d (WEXITSTATUS exitc) ++ "\n"
        match deljob c job with
        | .error e => .error e
        | .ok job1 => .ok (job1, [line])
    else .error Fault.app_error
  else .ok (job, [])

/-- The loop of `watchjobs` from slot `j` on, over the slots not yet visited. -/
def watch_from (c : ShellH) (which : Int) : Nat → List job_t →
    Except Fault (List job_t × List String)
  | _, [] => .ok ([], [])
  | j, job :: rest =>
    match watch_slot c which j job with
    | .error e => .error e
    | .ok r =>
      match watch_from c which (j + 1) rest with
      | .error e => .error e
      | .ok rs => .ok (r.1 :: rs.1, r.2 ++ rs.2)

/-- Function `watchjobs`. -/
def watchjobs (c : ShellH) (which : Int) (sh : Shell) : Except Fault Shell :=
  match watch_from c which BG (sh.jobs.drop BG) with
  | .error e => .error e
  | .ok r =>
    .ok { sh with
      jobs := sh.jobs.take BG ++ r.1
      trace := sh.trace ++ r.2.map Effect.print }

/-! ## Foreground monitor -/

/-- The loop `while (state == RUNNING)` of `monitorjob`; one `Wakeup` is used by
each `Sigsuspend`. Returns `state`, `exitcode` and the shell state. -/
def monitor_wait (c : ShellH) : List Wakeup → Int → Int → Shell →
    Except Fault (Int × Int × Shell)
  | [], state, code, sh =>
    if state = c.RUNNING then .error Fault.blocked else .ok (state, code, sh)
  | w :: ws, state, code, sh =>
    if state = c.RUNNING then
      let sh1 := Sigsuspend c w sh
      match jobstate c FG code sh1.jobs with
      | .error e => .error e
      | .ok r => monitor_wait c ws r.1 r.2.1 { sh1 with jobs := r.2.2 }
    else .ok (state, code, sh)

/-- Function `monitorjob`: the value returned and the shell state. -/
def monitorjob (c : ShellH) (ws : List Wakeup) (sh : Shell) :
    Except Fault (Int × Shell) :=
  match jobstate c FG 0 sh.jobs with
  | .error e => .error e
  | .ok r0 =>
    match monitor_wait c ws r0.1 r0.2.1 { sh with jobs := r0.2.2 } with
    | .error e => .error e
    | .ok (state, code, sh1) =>
      let moved : Except Fault Shell :=
        if state = c.STOPPED then
          let a := allocjob sh1.jobs
          match movejob FG a.1 a.2 with
          | .error e => .error e
          | .ok jobs2 =>
            match jobs2[a.1]? with
            | none => .error Fault.out_of_bounds
            | some nj => .ok (Tcsetattr nj.tmodes { sh1 with jobs := jobs2 })
        else .ok sh1
      match moved with
      | .error e => .error e
      | .ok sh2 =>
        let sh3 := setfgpgrp sh2.pgrp sh2
        .ok (code, Tcsetattr sh3.shell_tmodes sh3)

/-! ## Resume -/

/-- The parent branch of `do_job` after `Fork` returned `pid` (shell.c lines
113-127): the job is registered and, in the foreground, monitored. -/
def do_job_parent (c : ShellH) (pid : Int) (bg : Bool) (argv : List String)
    (ws : List Wakeup) (sh : Shell) : Except Fault (Int × Shell) :=
  let a := addjob c pid bg sh
  match addproc c a.1 pid argv a.2 with
  | .error e => .error e
  | .ok sh1 =>
    if !bg then monitorjob c ws sh1
    else
      match sh1.jobs[a.1]? with
      | none => .error Fault.assert_failed
      | some job =>
        .ok (0, sh1.printf
          ("[" ++ fmt_d a.1 ++ "] running '" ++ fmt_s job.command ++ "'\n"))

/-- One round of the loop of `main` for an external command: `do_job` and then
`watchjobs(FINISHED)` before the next prompt. -/
def main_round (c : ShellH) (pid : Int) (bg : Bool) (argv : List String)
    (ws : List Wakeup) (sh : Shell) : Except Fault Shell :=
  match do_job_parent c pid bg argv ws sh with
  | .error e => .error e
  | .ok r => watchjobs c c.FINISHED r.2

/-! ## Redirections -/

/-- Modelled from the spec: the token type of `shell.h`; a token is a literal
word or one of the distinguished sentinels (`NULL` is the null pointer). -/
inductive token_t where
  | NULL
  | T_INPUT
  | T_OUTPUT
  | T_PIPE
  | T_BGJOB
  | word (s : String)
  deriving DecidableEq, Repr

/-- The variables `do_redir` works on and the system calls it makes:
`opened` lists the paths given to `Open` (with `true` for the output flags),
`closed` the descriptors given to `Close`. -/
structure Redir where
  input : Int
  output : Int
  opened : List (token_t × Bool)
  closed : List Int
  deriving DecidableEq, Repr

/-- Function `MaybeClose`: the descriptor afterwards and the `Close` calls. -/
def MaybeClose (fd : Int) (closed : List Int) : Int × List Int :=
  if fd < 0 then (fd, closed) else (-1, closed ++ [fd])

/-- The loop of `do_redir` over `token[i..ntokens)`; `fds path out` is the
descriptor `Open` returns. Returns `n` and the descriptors. -/
def do_redir_loop (fds : token_t → Bool → Int) :
    List token_t → token_t → Nat → Redir → Nat × Redir
  | [], _, n, r => (n, r)
  | t :: ts, mode, n, r =>
    if t ≠ token_t.T_INPUT ∧ t ≠ token_t.T_OUTPUT then
      if mode = token_t.T_INPUT then
        let m := MaybeClose r.input r.closed
        do_redir_loop fds ts mode n
          { r with input := fds t false, closed := m.2, opened := r.opened ++ [(t, false)] }
      else if mode = token_t.T_OUTPUT then
        let m := MaybeClose r.output r.closed
        do_redir_loop fds ts mode n
          { r with output := fds t true, closed := m.2, opened := r.opened ++ [(t, true)] }
      else do_redir_loop fds ts mode (n + 1) r
    else do_redir_loop fds ts t n r

/-- Function `do_redir`: the value returned, the token array afterwards and the
descriptors. The array `token` has more than `ntokens` entries. -/
def do_redir (fds : token_t → Bool → Int) (token : List token_t) (ntokens : Nat)
    (r : Redir) : Nat × List token_t × Redir :=
  let res := do_redir_loop fds (token.take ntokens) token_t.NULL 0 r
  (res.1, token.set res.1 token_t.NULL, res.2)

/-- The surviving tokens of the specification: the tokens that are neither a
redirection operator nor the token right after one. -/
def surviving : List token_t → List token_t
  | [] => []
  | [t] => if t = token_t.T_INPUT ∨ t = token_t.T_OUTPUT then [] else [t]
  | t :: u :: ts =>
    if t = token_t.T_INPUT ∨ t = token_t.T_OUTPUT then surviving ts
    else t :: surviving (u :: ts)

/-! ## Notions used to state the properties -/

/-- The shell state after the given wakeups were taken by successive calls of
`Sigsuspend`. -/
def Shell.after (c : ShellH) (ws : List Wakeup) (sh : Shell) : Shell :=
  ws.foldl (fun s w => Sigsuspend c w s) sh

/-- The aggregate state stored in the foreground slot. -/
def Shell.fg_state (sh : Shell) : Option Int :=
  (sh.jobs[FG]?).map (fun job => job.state)

/-- What the reaper never changes in a slot: `b` has the pgid, command, saved
terminal modes and process count of `a`, and a state of the data model if `a`
has one. -/
def frame (c : ShellH) (a b : job_t) : Prop :=
  b.pgid = a.pgid ∧ b.command = a.command ∧ b.tmodes = a.tmodes ∧
  b.proc.length = a.proc.length ∧ (valid_state c a.state → valid_state c b.state)

/-- A slot is reported by `watchjobs(which)`: it is not free and its state
matches `which` (every state does when `which` is ALL). -/
def reported (c : ShellH) (which : Int) (job : job_t) : Prop :=
  job.pgid ≠ 0 ∧ (which = c.ALL ∨ which = job.state)

instance (c : ShellH) (which : Int) (job : job_t) : Decidable (reported c which job) := by
  unfold reported; infer_instance

/-- The reported background slots with their indices, in increasing slot order. -/
def reported_slots (c : ShellH) (which : Int) (jobs : List job_t) : List (Nat × job_t) :=
  jobs.enum.filter (fun x => decide (1 ≤ x.1) && decide (reported c which x.2))

/-- The line the specification gives for slot `x.1` holding the job `x.2`. -/
def line_ok (c : ShellH) (x : Nat × job_t) (line : String) : Prop :=
  (x.2.state = c.RUNNING →
    line = "[" ++ fmt_d x.1 ++ "] running '" ++ fmt_s x.2.command ++ "'\n") ∧
  (x.2.state = c.STOPPED →
    line = "[" ++ fmt_d x.1 ++ "] suspended '" ++ fmt_s x.2.command ++ "'\n") ∧
  (x.2.state = c.FINISHED → ∀ p, x.2.proc.getLast? = some p →
    (WIFEXITED p.exitcode = true →
      0 ≤ WEXITSTATUS p.exitcode ∧ WEXITSTATUS p.exitcode < 256 ∧
      line = "[" ++ fmt_d x.1 ++ "] exited '" ++ fmt_s x.2.command ++ "', status="
        ++ fmt_d (WEXITSTATUS p.exitcode) ++ "\n") ∧
    (WIFSIGNALED p.exitcode = true →
      line = "[" ++ fmt_d x.1 ++ "] killed '" ++ fmt_s x.2.command ++ "' by signal "
        ++ fmt_d (WTERMSIG p.exitcode) ++ "\n"))

/-- The text `watch_slot` prints for a reported slot whose state is one of the
three states. -/
def slot_line (c : ShellH) (j : Nat) (job : job_t) : String :=
  if job.state = c.RUNNING then
    "[" ++ fmt_d j ++ "] running '" ++ fmt_s job.command ++ "'\n"
  else if job.state = c.STOPPED then
    "[" ++ fmt_d j ++ "] suspended '" ++ fmt_s job.command ++ "'\n"
  else
    match job.proc.getLast? with
    | none => ""
    | some p =>
      if WIFSIGNALED p.exitcode then
        "[" ++ fmt_d j ++ "] killed '" ++ fmt_s job.command ++ "' by signal "
          ++ fmt_d (WTERMSIG p.exitcode) ++ "\n"
      else
        "[" ++ fmt_d j ++ "] exited '" ++ fmt_s job.command ++ "', status="
          ++ fmt_d (WEXITSTATUS p.exitcode) ++ "\n"

/-- The slot `watch_slot` leaves behind. -/
def slot_after (c : ShellH) (which : Int) (job : job_t) : job_t :=
  if reported c which job ∧ job.state = c.FINISHED then
    { job with pgid := 0, proc := [], command := none }
  else job

/-- The shell right after `initjobs`: one free slot, terminal attributes 5. -/
def sh_init : Shell :=
  { jobs := [zero_job], shell_tmodes := 5, tty := 5, tty_pgrp := 1, pgrp := 1, trace := [] }

/-- A running job of one process, pid 100, for the constants `shellh`. -/
def job_sleep : job_t :=
  { pgid := 100, proc := [⟨100, 1, -1⟩], tmodes := 5, state := 1,
    command := some "sleep 5" }

/-- The shell with `job_sleep` in the foreground slot. -/
def sh_fg : Shell := { sh_init with jobs := [job_sleep], tty_pgrp := 100 }

/-- A table with a free foreground slot and four background jobs: stopped,
running, exited with code 1, killed by signal 9. -/
def sh_bg : Shell :=
  { sh_init with
    jobs := [zero_job,
      { job_sleep with state := 2, proc := [⟨100, 2, -1⟩] },
      { job_sleep with pgid := 101, proc := [⟨101, 1, -1⟩] },
      { job_sleep with pgid := 102, state := 0, proc := [⟨102, 0, 256⟩] },
      { job_sleep with pgid := 103, state := 0, proc := [⟨103, 0, 9⟩] }] }

theorem update_proc_pid (c : ShellH) (pid status : Int) (p : proc_t) :
    (update_proc c pid status p).pid = p.pid := by
  unfold update_proc
  split_ifs <;> rfl

theorem scan_procs_cons_finished (c : ShellH) (pid status : Int) (p : proc_t)
    (ps : List proc_t) (fr fs : Bool) (hp : p.state = c.FINISHED) :
    scan_procs c pid status (p :: ps) fr fs
      = (p :: (scan_procs c pid status ps fr fs).1, (scan_procs c pid status ps fr fs).2) := by
  simp [scan_procs, hp]

theorem scan_procs_cons_live (c : ShellH) (pid status : Int) (p : proc_t)
    (ps : List proc_t) (fr fs : Bool) (hp : p.state ≠ c.FINISHED) :
    scan_procs c pid status (p :: ps) fr fs
      = (update_proc c pid status p ::
          (scan_procs c pid status ps
            (if (update_proc c pid status p).state = c.RUNNING then true else fr)
            (if (update_proc c pid status p).state = c.RUNNING then fs
             else if (update_proc c pid status p).state = c.STOPPED then true else fs)).1,
         (scan_procs c pid status ps
            (if (update_proc c pid status p).state = c.RUNNING then true else fr)
            (if (update_proc c pid status p).state = c.RUNNING then fs
             else if (update_proc c pid status p).state = c.STOPPED then true else fs)).2) := by
  simp [scan_procs, hp]

theorem scan_procs_flags (c : ShellH) (hc : c.Distinct) (pid status : Int)
    (ps : List proc_t) (fr fs : Bool) :
    (scan_procs c pid status ps fr fs).2.1
        = (fr || (scan_procs c pid status ps fr fs).1.any
            (fun p => decide (p.state = c.RUNNING))) ∧
    (scan_procs c pid status ps fr fs).2.2
        = (fs || (scan_procs c pid status ps fr fs).1.any
            (fun p => decide (p.state = c.STOPPED))) := by
  obtain ⟨h1, h2, h3, -⟩ := hc
  induction ps generalizing fr fs with
  | nil => simp [scan_procs]
  | cons p ps ih =>
    by_cases hp : p.state = c.FINISHED
    · have hr : p.state ≠ c.RUNNING := by rw [hp]; exact fun h => h2 h.symm
      have hs : p.state ≠ c.STOPPED := by rw [hp]; exact fun h => h3 h.symm
      rw [scan_procs_cons_finished c pid status p ps fr fs hp]
      have := ih fr fs
      simp only [List.any_cons, decide_eq_false hr, decide_eq_false hs, Bool.false_or]
      exact this
    · rw [scan_procs_cons_live c pid status p ps fr fs hp]
      generalize update_proc c pid status p = q
      by_cases hq : q.state = c.RUNNING
      · have hs : q.state ≠ c.STOPPED := by rw [hq]; exact h1
        have := ih true fs
        simp only [if_pos hq, List.any_cons, decide_eq_true hq, decide_eq_false hs,
          Bool.false_or, Bool.true_or, Bool.or_true]
        exact ⟨by rw [this.1]; simp, this.2⟩
      · by_cases hq2 : q.state = c.STOPPED
        · have := ih fr true
          simp only [if_neg hq, if_pos hq2, List.any_cons, decide_eq_true hq2,
            decide_eq_false hq, Bool.false_or, Bool.true_or, Bool.or_true]
          exact ⟨this.1, by rw [this.2]; simp⟩
        · have := ih fr fs
          simp only [if_neg hq, if_neg hq2, List.any_cons, decide_eq_false hq2,
            decide_eq_false hq, Bool.false_or]
          exact this

/-! ### Wait status predicates exclude each other -/

theorem not_stopped_of_continued (s : Int) (h : WIFCONTINUED s = true) :
    WIFSTOPPED s = false := by
  simp only [WIFCONTINUED, beq_iff_eq] at h
  subst h
  rfl

theorem not_continued_of_stopped (s : Int) (h : WIFSTOPPED s = true) :
    WIFCONTINUED s = false := by
  cases hc : WIFCONTINUED s
  · rfl
  · rw [not_stopped_of_continued s hc] at h; cases h

theorem not_continued_of_exited (s : Int) (h : WIFEXITED s = true) :
    WIFCONTINUED s = false := by
  simp only [WIFEXITED, WTERMSIG, beq_iff_eq] at h
  simp only [WIFCONTINUED, beq_eq_false_iff_ne, ne_eq]
  omega

theorem not_stopped_of_exited (s : Int) (h : WIFEXITED s = true) :
    WIFSTOPPED s = false := by
  simp only [WIFEXITED, WTERMSIG, beq_iff_eq] at h
  simp only [WIFSTOPPED, beq_eq_false_iff_ne, ne_eq]
  omega

theorem signaled_iff (s : Int) : WIFSIGNALED s = true ↔ 1 ≤ s % 128 ∧ s % 128 ≤ 126 := by
  simp only [WIFSIGNALED, decide_eq_true_eq]
  split_ifs <;> omega

theorem not_continued_of_signaled (s : Int) (h : WIFSIGNALED s = true) :
    WIFCONTINUED s = false := by
  rw [signaled_iff] at h
  simp only [WIFCONTINUED, beq_eq_false_iff_ne, ne_eq]
  omega

theorem not_stopped_of_signaled (s : Int) (h : WIFSIGNALED s = true) :
    WIFSTOPPED s = false := by
  rw [signaled_iff] at h
  simp only [WIFSTOPPED, beq_eq_false_iff_ne, ne_eq]
  omega

theorem not_signaled_of_exited (s : Int) (h : WIFEXITED s = true) :
    WIFSIGNALED s = false := by
  simp only [WIFEXITED, WTERMSIG, beq_iff_eq] at h
  cases hs : WIFSIGNALED s
  · rfl
  · rw [signaled_iff] at hs; omega

/-! ### The reaper -/

theorem update_proc_valid (c : ShellH) (pid status : Int) (p : proc_t)
    (h : valid_state c p.state) : valid_state c (update_proc c pid status p).state := by
  unfold update_proc
  split_ifs
  · exact Or.inl rfl
  · exact Or.inr (Or.inl rfl)
  · exact Or.inr (Or.inr rfl)
  · exact Or.inr (Or.inr rfl)
  · exact h
  · exact h

theorem scan_procs_fst (c : ShellH) (pid status : Int) (ps : List proc_t) (fr fs : Bool) :
    (scan_procs c pid status ps fr fs).1
      = ps.map (fun p => if p.state = c.FINISHED then p else update_proc c pid status p) := by
  induction ps generalizing fr fs with
  | nil => rfl
  | cons p ps ih =>
    by_cases hp : p.state = c.FINISHED
    · rw [scan_procs_cons_finished c pid status p ps fr fs hp]
      simp [hp, ih]
    · rw [scan_procs_cons_live c pid status p ps fr fs hp]
      simp [hp, ih]

theorem reap_job_state (c : ShellH) (hc : c.Distinct) (pid status : Int) (job : job_t) :
    (reap_job c pid status job).state = reduction c (reap_job c pid status job).proc := by
  have h := scan_procs_flags c hc pid status job.proc false false
  simp only [Bool.false_or] at h
  simp only [reap_job, reduction]
  obtain ⟨ha, hb⟩ := h
  generalize (scan_procs c pid status job.proc false false).2.1 = x at ha ⊢
  generalize (scan_procs c pid status job.proc false false).2.2 = y at hb ⊢
  subst ha hb
  rfl

theorem reap_job_valid (c : ShellH) (pid status : Int) (job : job_t)
    (hv : ∀ p ∈ job.proc, valid_state c p.state) :
    ∀ p ∈ (reap_job c pid status job).proc, valid_state c p.state := by
  intro p hp
  simp only [reap_job, scan_procs_fst, List.mem_map] at hp
  obtain ⟨q, hq, rfl⟩ := hp
  split_ifs
  · exact hv q hq
  · exact update_proc_valid c pid status q (hv q hq)

theorem sigchld_handler_valid (c : ShellH) (events : List (Int × Int)) (jobs : List job_t)
    (hv : ∀ job ∈ jobs, ∀ p ∈ job.proc, valid_state c p.state) :
    ∀ job ∈ sigchld_handler c events jobs, ∀ p ∈ job.proc, valid_state c p.state := by
  induction events generalizing jobs with
  | nil => exact hv
  | cons e es ih =>
    simp only [sigchld_handler, List.foldl_cons]
    apply ih
    intro job hjob
    simp only [reap, List.mem_map] at hjob
    obtain ⟨j0, hj0, rfl⟩ := hjob
    exact reap_job_valid c e.1 e.2 j0 (hv j0 hj0)

theorem sigchld_handler_length (c : ShellH) (events : List (Int × Int)) (jobs : List job_t) :
    (sigchld_handler c events jobs).length = jobs.length := by
  induction events generalizing jobs with
  | nil => rfl
  | cons e es ih =>
    simp only [sigchld_handler, List.foldl_cons]
    rw [show List.foldl (fun js e => reap c e.1 e.2 js) (reap c e.1 e.2 jobs) es
        = sigchld_handler c es (reap c e.1 e.2 jobs) from rfl, ih]
    simp [reap]

theorem sigchld_handler_concat (c : ShellH) (events : List (Int × Int)) (e : Int × Int)
    (jobs : List job_t) :
    sigchld_handler c (events ++ [e]) jobs
      = reap c e.1 e.2 (sigchld_handler c events jobs) := by
  simp [sigchld_handler, List.foldl_append]

theorem reduction_finished_iff (c : ShellH) (hc : c.Distinct) (ps : List proc_t)
    (hv : ∀ p ∈ ps, valid_state c p.state) :
    reduction c ps = c.FINISHED ↔ ∀ p ∈ ps, p.state = c.FINISHED := by
  obtain ⟨h1, h2, h3, -⟩ := hc
  unfold reduction
  constructor
  · intro h p hp
    by_cases hr : ps.any (fun p => decide (p.state = c.RUNNING)) = true
    · rw [if_pos hr] at h; exact absurd h h2
    · rw [if_neg hr] at h
      by_cases hs : ps.any (fun p => decide (p.state = c.STOPPED)) = true
      · rw [if_pos hs] at h; exact absurd h h3
      · simp only [List.any_eq_true, decide_eq_true_eq, not_exists, not_and] at hr hs
        rcases hv p hp with h' | h' | h'
        · exact absurd h' (hr p hp)
        · exact absurd h' (hs p hp)
        · exact h'
  · intro h
    have hr : ¬ ps.any (fun p => decide (p.state = c.RUNNING)) = true := by
      simp only [List.any_eq_true, decide_eq_true_eq, not_exists, not_and]
      intro p hp hpr
      exact h2 (hpr.symm.trans (h p hp))
    have hs : ¬ ps.any (fun p => decide (p.state = c.STOPPED)) = true := by
      simp only [List.any_eq_true, decide_eq_true_eq, not_exists, not_and]
      intro p hp hps
      exact h3 (hps.symm.trans (h p hp))
    rw [if_neg hr, if_neg hs]

/-- C1: after `sigchld_handler` has handled at least one status event, every
slot of the job table, whatever its state was before, has as aggregate state
the reduction of its process states (RUNNING if some process is RUNNING,
otherwise STOPPED if some process is STOPPED, otherwise FINISHED); hence the
job is FINISHED exactly when all of its processes are FINISHED. -/
theorem sigchld_handler_state_is_reduction (c : ShellH) (hc : c.Distinct)
    (events : List (Int × Int)) (hne : events ≠ []) (jobs : List job_t)
    (hv : ∀ job ∈ jobs, ∀ p ∈ job.proc, valid_state c p.state) :
    (sigchld_handler c events jobs).length = jobs.length ∧
    ∀ job ∈ sigchld_handler c events jobs,
      job.state = reduction c job.proc ∧
      (job.state = c.FINISHED ↔ ∀ p ∈ job.proc, p.state = c.FINISHED) := by
  refine ⟨sigchld_handler_length c events jobs, ?_⟩
  rcases List.eq_nil_or_concat events with h | ⟨es, e, rfl⟩
  · exact absurd h hne
  · rw [List.concat_eq_append]
    intro job hjob
    have hvalid := sigchld_handler_valid c (es ++ [e]) jobs hv job hjob
    rw [sigchld_handler_concat] at hjob
    simp only [reap, List.mem_map] at hjob
    obtain ⟨j0, -, rfl⟩ := hjob
    have hst := reap_job_state c hc e.1 e.2 j0
    refine ⟨hst, ?_⟩
    rw [hst]
    exact reduction_finished_iff c hc _ hvalid

/-- Witness of C1 on a two-slot table: a two-process job whose second process
stops. -/
theorem sigchld_handler_state_is_reduction_witness :
    (sigchld_handler shellh [(11, 4991)]
        [zero_job,
         { pgid := 10, proc := [⟨10, 0, 0⟩, ⟨11, 1, -1⟩], tmodes := 0, state := 1,
           command := some "a | b" }]).length = 2 ∧
    ∀ job ∈ sigchld_handler shellh [(11, 4991)]
        [zero_job,
         { pgid := 10, proc := [⟨10, 0, 0⟩, ⟨11, 1, -1⟩], tmodes := 0, state := 1,
           command := some "a | b" }],
      job.state = reduction shellh job.proc ∧
      (job.state = shellh.FINISHED ↔ ∀ p ∈ job.proc, p.state = shellh.FINISHED) :=
  sigchld_handler_state_is_reduction shellh (by decide) [(11, 4991)] (by decide)
    [zero_job,
     { pgid := 10, proc := [⟨10, 0, 0⟩, ⟨11, 1, -1⟩], tmodes := 0, state := 1,
       command := some "a | b" }]
    (by decide)

theorem update_proc_spec (c : ShellH) (pid status : Int) (p : proc_t) (hpid : p.pid = pid) :
    (WIFCONTINUED status = true →
      (update_proc c pid status p).state = c.RUNNING ∧
      (update_proc c pid status p).exitcode = -1) ∧
    (WIFSTOPPED status = true →
      (update_proc c pid status p).state = c.STOPPED ∧
      (update_proc c pid status p).exitcode = -1) ∧
    (WIFEXITED status = true ∨ WIFSIGNALED status = true →
      (update_proc c pid status p).state = c.FINISHED ∧
      (update_proc c pid status p).exitcode = status) := by
  refine ⟨?_, ?_, ?_⟩
  · intro h
    simp [update_proc, hpid, h]
  · intro h
    simp [update_proc, hpid, h, not_continued_of_stopped status h]
  · rintro (h | h)
    · simp [update_proc, hpid, h, not_continued_of_exited status h,
        not_stopped_of_exited status h]
    · simp only [update_proc, hpid, if_true, h, not_continued_of_signaled status h,
        not_stopped_of_signaled status h]
      cases WIFEXITED status <;> simp

/-- C2: for one status event `(pid, status)`, `sigchld_handler` keeps the number
of slots and, in every slot, the pgid, the command, the saved terminal modes
and the number of processes (so no slot is freed); a process with that pid
that is not FINISHED becomes RUNNING with exit code -1 when the status is
"continued", STOPPED with exit code -1 when it is "stopped", and FINISHED with
the raw status as exit code when it is "exited" or "signaled"; every other
process record is unchanged. -/
theorem sigchld_handler_updates_matching_live_procs (c : ShellH) (pid status : Int)
    (jobs : List job_t) :
    (sigchld_handler c [(pid, status)] jobs).length = jobs.length ∧
    ∀ (i : Nat) (job : job_t), jobs[i]? = some job →
      ∃ job1, (sigchld_handler c [(pid, status)] jobs)[i]? = some job1 ∧
        job1.pgid = job.pgid ∧ job1.command = job.command ∧ job1.tmodes = job.tmodes ∧
        job1.proc.length = job.proc.length ∧
        ∀ (k : Nat) (p : proc_t), job.proc[k]? = some p →
          ∃ q, job1.proc[k]? = some q ∧ q.pid = p.pid ∧
            (p.pid = pid ∧ p.state ≠ c.FINISHED →
              (WIFCONTINUED status = true → q.state = c.RUNNING ∧ q.exitcode = -1) ∧
              (WIFSTOPPED status = true → q.state = c.STOPPED ∧ q.exitcode = -1) ∧
              (WIFEXITED status = true ∨ WIFSIGNALED status = true →
                q.state = c.FINISHED ∧ q.exitcode = status)) ∧
            (¬ (p.pid = pid ∧ p.state ≠ c.FINISHED) → q = p) := by
  refine ⟨sigchld_handler_length c _ jobs, ?_⟩
  intro i job hi
  refine ⟨reap_job c pid status job, ?_, rfl, rfl, rfl, ?_, ?_⟩
  · simp [sigchld_handler, reap, List.getElem?_map, hi]
  · simp [reap_job, scan_procs_fst]
  · intro k p hk
    refine ⟨if p.state = c.FINISHED then p else update_proc c pid status p, ?_, ?_, ?_, ?_⟩
    · simp [reap_job, scan_procs_fst, List.getElem?_map, hk]
    · split_ifs
      · rfl
      · exact update_proc_pid c pid status p
    · rintro ⟨hpid, hlive⟩
      rw [if_neg hlive]
      exact update_proc_spec c pid status p hpid
    · intro h
      by_cases hf : p.state = c.FINISHED
      · rw [if_pos hf]
      · rw [if_neg hf]
        have hpid : ¬ pid = p.pid := fun e => h ⟨e.symm, hf⟩
        simp [update_proc, hpid]

/-- Witness of C2: a stop event for pid 11 on a table with a two-process job. -/
theorem sigchld_handler_updates_matching_live_procs_witness :
    (sigchld_handler shellh [(11, 4991)]
        [zero_job,
         { pgid := 10, proc := [⟨10, 0, 0⟩, ⟨11, 1, -1⟩], tmodes := 0, state := 1,
           command := some "a | b" }]).length = 2 :=
  (sigchld_handler_updates_matching_live_procs shellh 11 4991
    [zero_job,
     { pgid := 10, proc := [⟨10, 0, 0⟩, ⟨11, 1, -1⟩], tmodes := 0, state := 1,
       command := some "a | b" }]).1

/-! ### Job table operations -/

theorem exitcode_of_getLast (job : job_t) (p : proc_t) (h : job.proc.getLast? = some p) :
    exitcode job = .ok p.exitcode := by
  simp [exitcode, h]

theorem deljob_finished (c : ShellH) (job : job_t) (h : job.state = c.FINISHED) :
    deljob c job = .ok { job with pgid := 0, command := none, proc := [] } := by
  simp [deljob, h]

/-- C3: for an in-range slot `j` with at least one process, `jobstate` returns
the aggregate state stored in the slot; when that state is FINISHED, the exit
code of the last process is written to `*statusp` and the slot is freed (pgid
0, no processes, no command; tmodes and state stay, other slots are untouched);
when it is RUNNING or STOPPED, the job table and `*statusp` are unchanged. -/
theorem jobstate_returns_state_and_frees_finished (c : ShellH) (hc : c.Distinct)
    (j : Nat) (status : Int) (jobs : List job_t) (job : job_t)
    (hj : jobs[j]? = some job) (hp : job.proc ≠ []) :
    ∃ status1 jobs1, jobstate c j status jobs = .ok (job.state, status1, jobs1) ∧
      (job.state = c.FINISHED →
        status1 = (job.proc.getLast hp).exitcode ∧
        jobs1 = jobs.set j { job with pgid := 0, proc := [], command := none }) ∧
      (job.state = c.RUNNING ∨ job.state = c.STOPPED →
        status1 = status ∧ jobs1 = jobs) := by
  obtain ⟨-, h2, h3, -⟩ := hc
  by_cases hf : job.state = c.FINISHED
  · have hl : job.proc.getLast? = some (job.proc.getLast hp) := List.getLast?_eq_getLast _ hp
    refine ⟨(job.proc.getLast hp).exitcode,
      jobs.set j { job with pgid := 0, proc := [], command := none }, ?_, ?_, ?_⟩
    · simp only [jobstate, hj, if_pos hf, exitcode_of_getLast job _ hl, deljob_finished c job hf]
    · intro _; exact ⟨rfl, rfl⟩
    · rintro (h | h)
      · exact absurd (h.symm.trans hf) h2
      · exact absurd (h.symm.trans hf) h3
  · refine ⟨status, jobs, ?_, ?_, ?_⟩
    · simp only [jobstate, hj, if_neg hf]
    · intro h; exact absurd h hf
    · intro _; exact ⟨rfl, rfl⟩

/-- Witness of C3: slot 1 holds a finished two-process job. -/
theorem jobstate_returns_state_and_frees_finished_witness :
    ∃ status1 jobs1,
      jobstate shellh 1 77
        [zero_job,
         { pgid := 10, proc := [⟨10, 0, 0⟩, ⟨11, 0, 256⟩], tmodes := 3, state := 0,
           command := some "a | b" }]
        = .ok ((0 : Int), status1, jobs1) ∧
      (((0 : Int) = shellh.FINISHED) →
        status1 = 256 ∧
        jobs1 = [zero_job,
          { pgid := 0, proc := [], tmodes := 3, state := 0, command := none }]) ∧
      ((0 : Int) = shellh.RUNNING ∨ (0 : Int) = shellh.STOPPED →
        status1 = 77 ∧
        jobs1 = [zero_job,
          { pgid := 10, proc := [⟨10, 0, 0⟩, ⟨11, 0, 256⟩], tmodes := 3, state := 0,
            command := some "a | b" }]) :=
  jobstate_returns_state_and_frees_finished shellh (by decide) 1 77
    [zero_job,
     { pgid := 10, proc := [⟨10, 0, 0⟩, ⟨11, 0, 256⟩], tmodes := 3, state := 0,
       command := some "a | b" }]
    { pgid := 10, proc := [⟨10, 0, 0⟩, ⟨11, 0, 256⟩], tmodes := 3, state := 0,
      command := some "a | b" }
    rfl (by decide)

theorem find_free_some (j : Nat) (l : List job_t) (k : Nat) (h : find_free j l = some k) :
    ∃ i, k = j + i ∧ (∃ job, l[i]? = some job ∧ job.pgid = 0) ∧
      ∀ i1, i1 < i → ∀ job, l[i1]? = some job → job.pgid ≠ 0 := by
  induction l generalizing j with
  | nil => simp [find_free] at h
  | cons a l ih =>
    by_cases ha : a.pgid = 0
    · simp only [find_free, if_pos ha, Option.some.injEq] at h
      exact ⟨0, by omega, ⟨a, by simp, ha⟩, by intro i1 hi1; omega⟩
    · simp only [find_free, if_neg ha] at h
      obtain ⟨i, hk, hfree, hlow⟩ := ih (j + 1) h
      refine ⟨i + 1, by omega, by simpa using hfree, ?_⟩
      intro i1 hi1 job hjob
      cases i1 with
      | zero =>
        simp only [List.getElem?_cons_zero, Option.some.injEq] at hjob
        rw [← hjob]; exact ha
      | succ i2 =>
        simp only [List.getElem?_cons_succ] at hjob
        exact hlow i2 (by omega) job hjob

theorem find_free_none (j : Nat) (l : List job_t) (h : find_free j l = none) :
    ∀ job ∈ l, job.pgid ≠ 0 := by
  induction l generalizing j with
  | nil => simp
  | cons a l ih =>
    by_cases ha : a.pgid = 0
    · simp [find_free, ha] at h
    · simp only [find_free, if_neg ha] at h
      intro job hjob
      rcases List.mem_cons.1 hjob with rfl | hmem
      · exact ha
      · exact ih (j + 1) h job hmem

/-- C10: on a table with at least one slot, `allocjob` returns an index of at
least 1 whose slot is free after the call. If some slot with index in
`[1, njobmax)` is free, the index is the lowest such one and the table
(hence `njobmax`) is unchanged; otherwise the index is the old `njobmax`,
the table has one more slot, the new slot is all-zero and every earlier slot
is unchanged. -/
theorem allocjob_returns_free_background_slot (jobs : List job_t) (hn : 1 ≤ jobs.length) :
    1 ≤ (allocjob jobs).1 ∧
    (∃ job, (allocjob jobs).2[(allocjob jobs).1]? = some job ∧ job.pgid = 0) ∧
    ((∃ j job, 1 ≤ j ∧ jobs[j]? = some job ∧ job.pgid = 0) →
      (allocjob jobs).2 = jobs ∧ (allocjob jobs).1 < jobs.length ∧
      ∀ j job, 1 ≤ j → j < (allocjob jobs).1 → jobs[j]? = some job → job.pgid ≠ 0) ∧
    ((¬ ∃ j job, 1 ≤ j ∧ jobs[j]? = some job ∧ job.pgid = 0) →
      (allocjob jobs).1 = jobs.length ∧
      (allocjob jobs).2.length = jobs.length + 1 ∧
      (allocjob jobs).2[jobs.length]? = some zero_job ∧
      ∀ j, j < jobs.length → (allocjob jobs).2[j]? = jobs[j]?) := by
  cases hff : find_free BG (jobs.drop BG) with
  | some k =>
    obtain ⟨i, hk, ⟨job, hjob, hfree⟩, hlow⟩ := find_free_some BG _ k hff
    have hal : allocjob jobs = (k, jobs) := by simp [allocjob, hff]
    simp only [BG, List.getElem?_drop] at hjob hlow hk
    have hlt : k < jobs.length := by
      have := (List.getElem?_eq_some_iff.1 hjob).1
      omega
    rw [hal]
    refine ⟨by simp only; omega, ⟨job, by simpa [hk] using hjob, hfree⟩, ?_, ?_⟩
    · intro _
      refine ⟨rfl, hlt, ?_⟩
      intro j job1 hj1 hjk hjob1
      have hjj : 1 + (j - 1) = j := by omega
      exact hlow (j - 1) (by simp only at hjk; omega) job1 (by rw [hjj]; exact hjob1)
    · intro hno
      exact absurd ⟨k, job, by omega, by simpa [hk] using hjob, hfree⟩ hno
  | none =>
    have hall := find_free_none BG _ hff
    have hal : allocjob jobs = (jobs.length, jobs ++ [zero_job]) := by simp [allocjob, hff]
    rw [hal]
    refine ⟨hn, ⟨zero_job, by simp, rfl⟩, ?_, ?_⟩
    · rintro ⟨j, job, hj, hjob, hfree⟩
      have hmem : job ∈ jobs.drop BG := by
        rw [List.mem_iff_getElem?]
        refine ⟨j - 1, ?_⟩
        simp only [BG, List.getElem?_drop]
        rw [show 1 + (j - 1) = j by omega]
        exact hjob
      exact absurd hfree (hall job hmem)
    · intro _
      refine ⟨rfl, by simp, by simp, ?_⟩
      intro j hj
      simp [List.getElem?_append_left hj]


/-- Witness of C10: slots 1 and 3 are free, slot 1 is returned. -/
theorem allocjob_returns_free_background_slot_witness :
    1 ≤ (allocjob
      [zero_job, zero_job, { zero_job with pgid := 5 }, zero_job]).1 :=
  (allocjob_returns_free_background_slot
    [zero_job, zero_job, { zero_job with pgid := 5 }, zero_job] (by decide)).1

/-! ### The foreground monitor -/

theorem frame_refl (c : ShellH) (a : job_t) : frame c a a :=
  ⟨rfl, rfl, rfl, rfl, id⟩

theorem frame_trans (c : ShellH) (a b d : job_t) (h1 : frame c a b) (h2 : frame c b d) :
    frame c a d :=
  ⟨h2.1.trans h1.1, h2.2.1.trans h1.2.1, h2.2.2.1.trans h1.2.2.1,
    h2.2.2.2.1.trans h1.2.2.2.1, fun h => h2.2.2.2.2 (h1.2.2.2.2 h)⟩

theorem reap_job_frame (c : ShellH) (pid status : Int) (a : job_t) :
    frame c a (reap_job c pid status a) := by
  refine ⟨rfl, rfl, rfl, by simp [reap_job, scan_procs_fst], ?_⟩
  intro _
  simp only [reap_job, valid_state]
  split_ifs
  · exact Or.inl rfl
  · exact Or.inr (Or.inl rfl)
  · exact Or.inr (Or.inr rfl)

theorem sigchld_handler_frame (c : ShellH) (events : List (Int × Int)) (jobs : List job_t)
    (i : Nat) (a : job_t) (h : jobs[i]? = some a) :
    ∃ b, (sigchld_handler c events jobs)[i]? = some b ∧ frame c a b := by
  induction events generalizing jobs a with
  | nil => exact ⟨a, h, frame_refl c a⟩
  | cons e es ih =>
    have h1 : (reap c e.1 e.2 jobs)[i]? = some (reap_job c e.1 e.2 a) := by
      simp [reap, List.getElem?_map, h]
    obtain ⟨b, hb, hf⟩ := ih (reap c e.1 e.2 jobs) (reap_job c e.1 e.2 a) h1
    exact ⟨b, hb, frame_trans c _ _ _ (reap_job_frame c e.1 e.2 a) hf⟩

theorem after_cons (c : ShellH) (w : Wakeup) (ws : List Wakeup) (sh : Shell) :
    Shell.after c (w :: ws) sh = Shell.after c ws (Sigsuspend c w sh) := rfl

theorem after_frame (c : ShellH) (ws : List Wakeup) (sh : Shell) (i : Nat) (a : job_t)
    (h : sh.jobs[i]? = some a) :
    ∃ b, (Shell.after c ws sh).jobs[i]? = some b ∧ frame c a b := by
  induction ws generalizing sh a with
  | nil => exact ⟨a, h, frame_refl c a⟩
  | cons w ws ih =>
    obtain ⟨b1, hb1, hf1⟩ := sigchld_handler_frame c w.events sh.jobs i a h
    obtain ⟨b, hb, hf⟩ := ih (Sigsuspend c w sh) b1 hb1
    exact ⟨b, hb, frame_trans c _ _ _ hf1 hf⟩

theorem after_length (c : ShellH) (ws : List Wakeup) (sh : Shell) :
    (Shell.after c ws sh).jobs.length = sh.jobs.length := by
  induction ws generalizing sh with
  | nil => rfl
  | cons w ws ih =>
    rw [after_cons, ih]
    exact sigchld_handler_length c w.events sh.jobs

theorem after_fields (c : ShellH) (ws : List Wakeup) (sh : Shell) :
    (Shell.after c ws sh).shell_tmodes = sh.shell_tmodes ∧
    (Shell.after c ws sh).pgrp = sh.pgrp ∧
    (Shell.after c ws sh).trace = sh.trace ∧
    (Shell.after c ws sh).tty_pgrp = sh.tty_pgrp := by
  induction ws generalizing sh with
  | nil => exact ⟨rfl, rfl, rfl, rfl⟩
  | cons w ws ih => rw [after_cons]; exact ih (Sigsuspend c w sh)

theorem monitor_wait_not_running (c : ShellH) (ws : List Wakeup) (state code : Int)
    (sh : Shell) (h : state ≠ c.RUNNING) :
    monitor_wait c ws state code sh = .ok (state, code, sh) := by
  cases ws <;> simp [monitor_wait, h]

theorem fg_state_of_get (sh : Shell) (fg : job_t) (h : sh.jobs[FG]? = some fg) :
    sh.fg_state = some fg.state := by
  simp [Shell.fg_state, h]

theorem proc_ne_nil_of_frame (c : ShellH) (a b : job_t) (h : frame c a b) (ha : a.proc ≠ []) :
    b.proc ≠ [] := by
  intro hb
  have := h.2.2.2.1
  rw [hb] at this
  exact ha (List.length_eq_zero.1 this.symm)

theorem jobstate_finished (c : ShellH) (j : Nat) (status : Int) (jobs : List job_t)
    (job : job_t) (p : proc_t) (hj : jobs[j]? = some job) (hl : job.proc.getLast? = some p)
    (hf : job.state = c.FINISHED) :
    jobstate c j status jobs
      = .ok (job.state, p.exitcode,
          jobs.set j { job with pgid := 0, proc := [], command := none }) := by
  simp only [jobstate, hj, if_pos hf, exitcode_of_getLast job p hl, deljob_finished c job hf]

theorem jobstate_live (c : ShellH) (j : Nat) (status : Int) (jobs : List job_t)
    (job : job_t) (hj : jobs[j]? = some job) (hf : job.state ≠ c.FINISHED) :
    jobstate c j status jobs = .ok (job.state, status, jobs) := by
  simp only [jobstate, hj, if_neg hf]

/-- The wait loop of `monitorjob`, entered with the state of the foreground slot:
it returns once that state is not RUNNING, after exactly `k` suspensions. -/
theorem monitor_wait_spec (c : ShellH) (hc : c.Distinct) (ws : List Wakeup) (k : Nat)
    (sh : Shell) (code : Int) (fg : job_t)
    (hfg : sh.jobs[FG]? = some fg) (hp : fg.proc ≠ []) (hk : k ≤ ws.length)
    (hrun : ∀ i, i < k → (Shell.after c (ws.take i) sh).fg_state = some c.RUNNING)
    (hend : (Shell.after c (ws.take k) sh).fg_state ≠ some c.RUNNING) :
    ∃ job p, (Shell.after c (ws.take k) sh).jobs[FG]? = some job ∧
      job.proc.getLast? = some p ∧ frame c fg job ∧
      (k ≠ 0 ∧ job.state = c.FINISHED →
        monitor_wait c ws fg.state code sh
          = .ok (job.state, p.exitcode,
              { Shell.after c (ws.take k) sh with
                jobs := (Shell.after c (ws.take k) sh).jobs.set FG
                  { job with pgid := 0, proc := [], command := none } })) ∧
      (¬ (k ≠ 0 ∧ job.state = c.FINISHED) →
        monitor_wait c ws fg.state code sh
          = .ok (job.state, code, Shell.after c (ws.take k) sh)) := by
  induction ws generalizing k sh fg code with
  | nil =>
    have hk0 : k = 0 := by simpa using hk
    subst hk0
    have hne : fg.state ≠ c.RUNNING := by
      intro h; apply hend
      rw [show Shell.after c (List.take 0 []) sh = sh from rfl, fg_state_of_get sh fg hfg, h]
    refine ⟨fg, fg.proc.getLast hp, hfg, List.getLast?_eq_getLast _ hp, frame_refl c fg, ?_, ?_⟩
    · rintro ⟨h, -⟩; exact absurd rfl h
    · intro _; exact monitor_wait_not_running c [] fg.state code sh hne
  | cons w ws ih =>
    cases k with
    | zero =>
      have hne : fg.state ≠ c.RUNNING := by
        intro h; apply hend
        rw [show Shell.after c (List.take 0 (w :: ws)) sh = sh from rfl,
          fg_state_of_get sh fg hfg, h]
      refine ⟨fg, fg.proc.getLast hp, hfg, List.getLast?_eq_getLast _ hp, frame_refl c fg,
        ?_, ?_⟩
      · rintro ⟨h, -⟩; exact absurd rfl h
      · intro _; exact monitor_wait_not_running c (w :: ws) fg.state code sh hne
    | succ k =>
      have hst : fg.state = c.RUNNING := by
        have h0 := hrun 0 (by omega)
        rw [show Shell.after c (List.take 0 (w :: ws)) sh = sh from rfl,
          fg_state_of_get sh fg hfg] at h0
        exact Option.some.inj h0
      obtain ⟨fg1, hfg1, hfr⟩ := sigchld_handler_frame c w.events sh.jobs FG fg hfg
      have hfg1' : (Sigsuspend c w sh).jobs[FG]? = some fg1 := hfg1
      have hp1 : fg1.proc ≠ [] := proc_ne_nil_of_frame c fg fg1 hfr hp
      have htake : ∀ i, Shell.after c (List.take (i + 1) (w :: ws)) sh
          = Shell.after c (List.take i ws) (Sigsuspend c w sh) := fun i => rfl
      have hk1 : k ≤ ws.length := by simpa using hk
      have hrun1 : ∀ i, i < k →
          (Shell.after c (ws.take i) (Sigsuspend c w sh)).fg_state = some c.RUNNING := by
        intro i hi
        rw [← htake i]; exact hrun (i + 1) (by omega)
      have hend1 : (Shell.after c (ws.take k) (Sigsuspend c w sh)).fg_state
          ≠ some c.RUNNING := by
        rw [← htake k]; exact hend
      obtain ⟨job, p, hjob, hlast, hfr1, hA, hB⟩ :=
        ih k (Sigsuspend c w sh) code fg1 hfg1' hp1 hk1 hrun1 hend1
      rw [htake k]
      refine ⟨job, p, hjob, hlast, frame_trans c _ _ _ hfr hfr1, ?_, ?_⟩
      · rintro ⟨-, hfin⟩
        by_cases hf : fg1.state = c.FINISHED
        · have hk0 : k = 0 := by
            by_contra hne
            have h1 := hrun1 0 (by omega)
            rw [show Shell.after c (List.take 0 ws) (Sigsuspend c w sh)
                = Sigsuspend c w sh from rfl, fg_state_of_get _ fg1 hfg1', hf] at h1
            exact hc.2.1 (Option.some.inj h1).symm
          subst hk0
          have hT : Shell.after c (List.take 0 ws) (Sigsuspend c w sh)
              = Sigsuspend c w sh := rfl
          rw [hT] at hjob ⊢
          have hjeq : job = fg1 := Option.some.inj (hjob.symm.trans hfg1')
          subst hjeq
          simp only [monitor_wait, hst, if_true]
          rw [jobstate_finished c FG code _ job p hfg1' hlast hf]
          simp only
          rw [monitor_wait_not_running c ws _ _ _ (by rw [hf]; exact fun h => hc.2.1 h.symm)]
        · simp only [monitor_wait, hst, if_true]
          rw [jobstate_live c FG code _ fg1 hfg1' hf]
          simp only
          have hk0 : k ≠ 0 := by
            intro hk0
            subst hk0
            rw [show Shell.after c (List.take 0 ws) (Sigsuspend c w sh)
                = Sigsuspend c w sh from rfl] at hjob
            have hjeq : job = fg1 := Option.some.inj (hjob.symm.trans hfg1')
            exact hf (hjeq ▸ hfin)
          exact hA ⟨hk0, hfin⟩
      · intro hno
        have hnf : job.state ≠ c.FINISHED := fun h => hno ⟨by omega, h⟩
        have hf : fg1.state ≠ c.FINISHED := by
          intro hf
          have hk0 : k = 0 := by
            by_contra hne
            have h1 := hrun1 0 (by omega)
            rw [show Shell.after c (List.take 0 ws) (Sigsuspend c w sh)
                = Sigsuspend c w sh from rfl, fg_state_of_get _ fg1 hfg1', hf] at h1
            exact hc.2.1 (Option.some.inj h1).symm
          subst hk0
          rw [show Shell.after c (List.take 0 ws) (Sigsuspend c w sh)
              = Sigsuspend c w sh from rfl] at hjob
          have hjeq : job = fg1 := Option.some.inj (hjob.symm.trans hfg1')
          exact hnf (hjeq ▸ hf)
        simp only [monitor_wait, hst, if_true]
        rw [jobstate_live c FG code _ fg1 hfg1' hf]
        simp only
        exact hB (fun h => hnf h.2)

theorem allocjob_cases (jobs : List job_t) (hn : 1 ≤ jobs.length) :
    1 ≤ (allocjob jobs).1 ∧
    (∃ d, (allocjob jobs).2[(allocjob jobs).1]? = some d ∧ d.pgid = 0) ∧
    (∀ old, jobs[(allocjob jobs).1]? = some old → old.pgid = 0) ∧
    (allocjob jobs).1 < (allocjob jobs).2.length ∧
    ∀ i, i < jobs.length → (allocjob jobs).2[i]? = jobs[i]? := by
  cases hff : find_free BG (jobs.drop BG) with
  | some k =>
    obtain ⟨i, hk, ⟨job, hjob, hfree⟩, -⟩ := find_free_some BG _ k hff
    have hal : allocjob jobs = (k, jobs) := by simp [allocjob, hff]
    simp only [BG, List.getElem?_drop] at hjob hk
    rw [← hk] at hjob
    rw [hal]
    refine ⟨by simp only; omega, ⟨job, hjob, hfree⟩, ?_,
      (List.getElem?_eq_some_iff.1 hjob).1, fun _ _ => rfl⟩
    intro old hold
    simp only at hold
    rw [hjob] at hold
    exact (Option.some.inj hold) ▸ hfree
  | none =>
    have hal : allocjob jobs = (jobs.length, jobs ++ [zero_job]) := by simp [allocjob, hff]
    rw [hal]
    refine ⟨hn, ⟨zero_job, by simp, rfl⟩, ?_, by simp, ?_⟩
    · intro old hold
      simp only at hold
      rw [List.getElem?_eq_none (le_refl _)] at hold
      cases hold
    · intro i hi
      simp [List.getElem?_append_left hi]

/-- Moving the foreground job to the slot given by `allocjob`. -/
theorem alloc_move (jobs : List job_t) (job : job_t) (hfg : jobs[FG]? = some job) :
    ∃ jobs2, movejob FG (allocjob jobs).1 (allocjob jobs).2 = .ok jobs2 ∧
      1 ≤ (allocjob jobs).1 ∧
      (∀ old, jobs[(allocjob jobs).1]? = some old → old.pgid = 0) ∧
      jobs2[(allocjob jobs).1]? = some job ∧
      jobs2[FG]? = some zero_job ∧
      ∀ i, i ≠ FG → i ≠ (allocjob jobs).1 → i < jobs.length → jobs2[i]? = jobs[i]? := by
  have hn : 1 ≤ jobs.length := by
    have := (List.getElem?_eq_some_iff.1 hfg).1
    simp only [FG] at this; omega
  obtain ⟨h1, ⟨d, hd, hd0⟩, hold, hlt, hsame⟩ := allocjob_cases jobs hn
  have hfg2 : (allocjob jobs).2[FG]? = some job := by
    rw [hsame FG (by simp only [FG]; omega)]; exact hfg
  have hne : FG ≠ (allocjob jobs).1 := by simp only [FG]; omega
  refine ⟨((allocjob jobs).2.set (allocjob jobs).1 job).set FG zero_job, ?_, h1, hold, ?_, ?_, ?_⟩
  · simp only [movejob, hd, hfg2, if_pos hd0]
  · rw [List.getElem?_set_ne hne, List.getElem?_set_self hlt]
  · rw [List.getElem?_set_self (by simp only [List.length_set, FG]; omega)]
  · intro i hi0 hin hilt
    rw [List.getElem?_set_ne (Ne.symm hi0), List.getElem?_set_ne (Ne.symm hin), hsame i hilt]

theorem monitorjob_not_stopped (c : ShellH) (ws : List Wakeup) (sh : Shell)
    (r0 : Int × Int × List job_t) (state code : Int) (sh1 : Shell)
    (h0 : jobstate c FG 0 sh.jobs = .ok r0)
    (h1 : monitor_wait c ws r0.1 r0.2.1 { sh with jobs := r0.2.2 } = .ok (state, code, sh1))
    (hs : state ≠ c.STOPPED) :
    monitorjob c ws sh
      = .ok (code, Tcsetattr sh1.shell_tmodes (setfgpgrp sh1.pgrp sh1)) := by
  simp only [monitorjob, h0, h1, if_neg hs]
  rfl

theorem monitorjob_stopped (c : ShellH) (ws : List Wakeup) (sh : Shell)
    (r0 : Int × Int × List job_t) (state code : Int) (sh1 : Shell)
    (jobs2 : List job_t) (nj : job_t)
    (h0 : jobstate c FG 0 sh.jobs = .ok r0)
    (h1 : monitor_wait c ws r0.1 r0.2.1 { sh with jobs := r0.2.2 } = .ok (state, code, sh1))
    (hs : state = c.STOPPED)
    (hm : movejob FG (allocjob sh1.jobs).1 (allocjob sh1.jobs).2 = .ok jobs2)
    (hn : jobs2[(allocjob sh1.jobs).1]? = some nj) :
    monitorjob c ws sh
      = .ok (code, Tcsetattr sh1.shell_tmodes
          (setfgpgrp sh1.pgrp (Tcsetattr nj.tmodes { sh1 with jobs := jobs2 }))) := by
  simp only [monitorjob, h0, h1, if_pos hs, hm, hn]
  rfl

/-- What `monitorjob` returns, in terms of the shell state `T` found after the
`k` suspensions that end the wait. -/
theorem monitorjob_spec (c : ShellH) (hc : c.Distinct)
    (ws : List Wakeup) (k : Nat) (sh : Shell) (fg : job_t)
    (hfg : sh.jobs[FG]? = some fg) (hp : fg.proc ≠ []) (hv : valid_state c fg.state)
    (hk : k ≤ ws.length)
    (hrun : ∀ i, i < k → (Shell.after c (ws.take i) sh).fg_state = some c.RUNNING)
    (hend : (Shell.after c (ws.take k) sh).fg_state ≠ some c.RUNNING) :
    ∃ job p,
      (Shell.after c (ws.take k) sh).jobs[FG]? = some job ∧
      job.proc.getLast? = some p ∧ frame c fg job ∧
      (job.state = c.FINISHED ∨ job.state = c.STOPPED) ∧
      (job.state = c.FINISHED →
        monitorjob c ws sh
          = .ok (p.exitcode,
              Tcsetattr (Shell.after c (ws.take k) sh).shell_tmodes
                (setfgpgrp (Shell.after c (ws.take k) sh).pgrp
                  { Shell.after c (ws.take k) sh with
                    jobs := (Shell.after c (ws.take k) sh).jobs.set FG
                      { job with pgid := 0, proc := [], command := none } }))) ∧
      (job.state = c.STOPPED →
        ∃ jobs2,
          movejob FG (allocjob (Shell.after c (ws.take k) sh).jobs).1
            (allocjob (Shell.after c (ws.take k) sh).jobs).2 = .ok jobs2 ∧
          monitorjob c ws sh
            = .ok (0,
                Tcsetattr (Shell.after c (ws.take k) sh).shell_tmodes
                  (setfgpgrp (Shell.after c (ws.take k) sh).pgrp
                    (Tcsetattr job.tmodes
                      { Shell.after c (ws.take k) sh with jobs := jobs2 })))) := by
  have hFS : c.FINISHED ≠ c.STOPPED := fun h => hc.2.2.1 h.symm
  by_cases hf0 : fg.state = c.FINISHED
  · -- the job is already FINISHED at the call: no suspension is used
    have hk0 : k = 0 := by
      by_contra hne
      have h0 := hrun 0 (by omega)
      rw [show Shell.after c (List.take 0 ws) sh = sh from rfl,
        fg_state_of_get sh fg hfg, hf0] at h0
      exact hc.2.1 (Option.some.inj h0).symm
    subst hk0
    have hT : Shell.after c (List.take 0 ws) sh = sh := rfl
    rw [hT]
    have hl : fg.proc.getLast? = some (fg.proc.getLast hp) := List.getLast?_eq_getLast _ hp
    have h0 := jobstate_finished c FG 0 sh.jobs fg _ hfg hl hf0
    have h1 := monitor_wait_not_running c ws fg.state (fg.proc.getLast hp).exitcode
      { sh with jobs := sh.jobs.set FG { fg with pgid := 0, proc := [], command := none } }
      (by rw [hf0]; exact fun h => hc.2.1 h.symm)
    have hm := monitorjob_not_stopped c ws sh _ _ _ _ h0 h1 (by rw [hf0]; exact hFS)
    refine ⟨fg, fg.proc.getLast hp, hfg, hl, frame_refl c fg, Or.inl hf0, ?_, ?_⟩
    · intro _; exact hm
    · intro h; exact absurd (hf0.symm.trans h) hFS
  · have h0 := jobstate_live c FG 0 sh.jobs fg hfg hf0
    obtain ⟨job, p, hjob, hlast, hfr, hA, hB⟩ :=
      monitor_wait_spec c hc ws k sh 0 fg hfg hp hk hrun hend
    have hnr : job.state ≠ c.RUNNING := by
      intro h; apply hend
      rw [fg_state_of_get _ job hjob, h]
    have hvalid : valid_state c job.state := hfr.2.2.2.2 hv
    by_cases hfin : job.state = c.FINISHED
    · have hk0 : k ≠ 0 := by
        intro hk0
        subst hk0
        rw [show Shell.after c (List.take 0 ws) sh = sh from rfl] at hjob
        exact hf0 ((Option.some.inj (hfg.symm.trans hjob)) ▸ hfin)
      have h1 := hA ⟨hk0, hfin⟩
      have hm := monitorjob_not_stopped c ws sh _ _ _ _ h0 h1 (by rw [hfin]; exact hFS)
      refine ⟨job, p, hjob, hlast, hfr, Or.inl hfin, ?_, ?_⟩
      · intro _; exact hm
      · intro h; exact absurd (hfin.symm.trans h) hFS
    · have hstop : job.state = c.STOPPED := by
        rcases hvalid with h | h | h
        · exact absurd h hnr
        · exact h
        · exact absurd h hfin
      have h1 := hB (fun h => hfin h.2)
      obtain ⟨jobs2, hmv, -, -, hnew, -, -⟩ :=
        alloc_move (Shell.after c (ws.take k) sh).jobs job hjob
      have hm := monitorjob_stopped c ws sh _ _ _ _ jobs2 job h0 h1 hstop hmv hnew
      refine ⟨job, p, hjob, hlast, hfr, Or.inr hstop, ?_, ?_⟩
      · intro h; exact absurd h hfin
      · intro _; exact ⟨jobs2, hmv, hm⟩

/-- C4: the foreground slot holds a job with at least one process, and the
child-status events of the first `k` suspensions leave that job not RUNNING
(it is RUNNING before each of them). Then `monitorjob` returns and slot 0 is
free. If the job is then FINISHED, the value returned is the exit code stored
for its last process and the table is the one the reaper left with slot 0
freed, so the job is in no slot. If it is STOPPED, the value returned is 0 and
the whole job record (pgid, processes, command, state STOPPED) sits in a slot
`n >= 1` that held no job before the call, slot 0 is all-zero and the other
slots are as the reaper left them. -/
theorem monitorjob_returns_with_foreground_free (c : ShellH) (hc : c.Distinct)
    (ws : List Wakeup) (k : Nat) (sh : Shell) (fg : job_t)
    (hfg : sh.jobs[FG]? = some fg) (hp : fg.proc ≠ []) (hv : valid_state c fg.state)
    (hk : k ≤ ws.length)
    (hrun : ∀ i, i < k → (Shell.after c (ws.take i) sh).fg_state = some c.RUNNING)
    (hend : (Shell.after c (ws.take k) sh).fg_state ≠ some c.RUNNING) :
    ∃ job p ret sh1,
      (Shell.after c (ws.take k) sh).jobs[FG]? = some job ∧
      job.proc.getLast? = some p ∧ job.pgid = fg.pgid ∧ job.command = fg.command ∧
      monitorjob c ws sh = .ok (ret, sh1) ∧
      (∃ s0, sh1.jobs[FG]? = some s0 ∧ s0.pgid = 0) ∧
      (job.state = c.FINISHED ∨ job.state = c.STOPPED) ∧
      (job.state = c.FINISHED →
        ret = p.exitcode ∧
        sh1.jobs = (Shell.after c (ws.take k) sh).jobs.set FG
          { job with pgid := 0, proc := [], command := none }) ∧
      (job.state = c.STOPPED →
        ret = 0 ∧
        ∃ n, 1 ≤ n ∧ (∀ old, sh.jobs[n]? = some old → old.pgid = 0) ∧
          sh1.jobs[n]? = some job ∧ sh1.jobs[FG]? = some zero_job ∧
          ∀ i, i ≠ FG → i ≠ n → i < sh.jobs.length →
            sh1.jobs[i]? = (Shell.after c (ws.take k) sh).jobs[i]?) := by
  have hFS : c.FINISHED ≠ c.STOPPED := fun h => hc.2.2.1 h.symm
  have hlen0 : 0 < (Shell.after c (ws.take k) sh).jobs.length := by
    rw [after_length]
    have := (List.getElem?_eq_some_iff.1 hfg).1
    simpa [FG] using this
  obtain ⟨job, p, hjob, hlast, hfr, hcase, hF, hS⟩ :=
    monitorjob_spec c hc ws k sh fg hfg hp hv hk hrun hend
  rcases hcase with hfin | hstop
  · refine ⟨job, p, _, _, hjob, hlast, hfr.1, hfr.2.1, hF hfin, ?_, Or.inl hfin, ?_, ?_⟩
    · refine ⟨{ job with pgid := 0, proc := [], command := none }, ?_, rfl⟩
      show ((Shell.after c (ws.take k) sh).jobs.set FG _)[FG]? = _
      rw [List.getElem?_set_self (by simpa [FG] using hlen0)]
    · intro _; exact ⟨rfl, rfl⟩
    · intro h; exact absurd (hfin.symm.trans h) hFS
  · obtain ⟨jobs2, hmv, hm⟩ := hS hstop
    obtain ⟨jobs3, hmv3, hn1, hold, hnew, hzero, hrest⟩ :=
      alloc_move (Shell.after c (ws.take k) sh).jobs job hjob
    have he : jobs3 = jobs2 := Except.ok.inj (hmv3.symm.trans hmv)
    subst he
    refine ⟨job, p, _, _, hjob, hlast, hfr.1, hfr.2.1, hm, ⟨zero_job, hzero, rfl⟩,
      Or.inr hstop, ?_, ?_⟩
    · intro h; exact absurd (h.symm.trans hstop) hFS
    · intro _
      refine ⟨rfl, (allocjob (Shell.after c (ws.take k) sh).jobs).1, hn1, ?_, hnew, hzero, ?_⟩
      · intro old hold0
        obtain ⟨b, hb, hfb⟩ := after_frame c (ws.take k) sh _ old hold0
        rw [← hfb.1]
        exact hold b hb
      · intro i hi0 hin hilt
        exact hrest i hi0 hin (by rw [after_length]; exact hilt)

/-! ### Listing -/

theorem watch_slot_eq (c : ShellH) (hc : c.Distinct) (which : Int) (j : Nat) (job : job_t)
    (hv : job.pgid ≠ 0 → valid_state c job.state ∧ job.proc ≠ []) :
    watch_slot c which j job
      = .ok (slot_after c which job,
          if reported c which job then [slot_line c j job] else []) := by
  obtain ⟨h1, h2, h3, -⟩ := hc
  by_cases hfree : job.pgid = 0
  · have hnr : ¬ reported c which job := fun h => h.1 hfree
    simp [watch_slot, hfree, slot_after, hnr]
  · obtain ⟨hvalid, hp⟩ := hv hfree
    by_cases hm : which = c.ALL ∨ which = job.state
    · have hr : reported c which job := ⟨hfree, hm⟩
      rcases hvalid with hs | hs | hs
      · have hnf : job.state ≠ c.FINISHED := by rw [hs]; exact h2
        simp only [watch_slot, if_neg hfree, if_pos hm, if_pos hs, slot_after, if_pos hr,
          slot_line, hnf, and_false, if_false]
      · have hnr : job.state ≠ c.RUNNING := by rw [hs]; exact fun h => h1 h.symm
        have hnf : job.state ≠ c.FINISHED := by rw [hs]; exact h3
        simp only [watch_slot, if_neg hfree, if_pos hm, if_neg hnr, if_pos hs, slot_after,
          if_pos hr, slot_line, hnf, and_false, if_false]
      · have hnr : job.state ≠ c.RUNNING := by rw [hs]; exact fun h => h2 h.symm
        have hns : job.state ≠ c.STOPPED := by rw [hs]; exact fun h => h3 h.symm
        have hl : job.proc.getLast? = some (job.proc.getLast hp) :=
          List.getLast?_eq_getLast _ hp
        simp only [watch_slot, if_neg hfree, if_pos hm, if_neg hnr, if_neg hns, if_pos hs,
          exitcode_of_getLast job _ hl, deljob_finished c job hs, slot_after, if_pos hr,
          slot_line, hl, if_pos (And.intro hr hs)]
    · have hnr : ¬ reported c which job := fun h => hm h.2
      simp [watch_slot, hfree, hm, slot_after, hnr]

theorem watch_from_eq (c : ShellH) (hc : c.Distinct) (which : Int) (j : Nat)
    (l : List job_t)
    (hv : ∀ job ∈ l, job.pgid ≠ 0 → valid_state c job.state ∧ job.proc ≠ []) :
    watch_from c which j l
      = .ok (l.map (slot_after c which),
          ((l.enumFrom j).filter (fun x => decide (reported c which x.2))).map
            (fun x => slot_line c x.1 x.2)) := by
  induction l generalizing j with
  | nil => rfl
  | cons a l ih =>
    have ha := watch_slot_eq c hc which j a (hv a (List.mem_cons_self a l))
    have hl := ih (j + 1) (fun job hjob => hv job (List.mem_cons_of_mem a hjob))
    simp only [watch_from, ha, hl, List.map_cons, List.enumFrom_cons, List.filter_cons]
    by_cases hr : reported c which a
    · simp [hr]
    · simp [hr]

theorem slot_line_ok (c : ShellH) (hc : c.Distinct) (j : Nat) (job : job_t) :
    line_ok c (j, job) (slot_line c j job) := by
  obtain ⟨h1, h2, h3, -⟩ := hc
  refine ⟨?_, ?_, ?_⟩
  · intro hs
    simp only [slot_line, if_pos hs]
  · intro hs
    have hnr : job.state ≠ c.RUNNING := by rw [hs]; exact fun h => h1 h.symm
    simp only [slot_line, if_neg hnr, if_pos hs]
  · intro hs p hl
    have hnr : job.state ≠ c.RUNNING := by rw [hs]; exact fun h => h2 h.symm
    have hns : job.state ≠ c.STOPPED := by rw [hs]; exact fun h => h3 h.symm
    refine ⟨?_, ?_⟩
    · intro he
      have hsig := not_signaled_of_exited p.exitcode he
      refine ⟨by simp only [WEXITSTATUS]; omega, by simp only [WEXITSTATUS]; omega, ?_⟩
      simp [slot_line, hnr, hns, hl, hsig]
    · intro hsig
      simp [slot_line, hnr, hns, hl, hsig]

theorem reported_slots_eq (c : ShellH) (which : Int) (jobs : List job_t) :
    reported_slots c which jobs
      = ((jobs.drop BG).enumFrom BG).filter (fun x => decide (reported c which x.2)) := by
  cases jobs with
  | nil => rfl
  | cons a l =>
    simp only [reported_slots, List.enum_cons, List.filter_cons, BG, List.drop_succ_cons,
      List.drop_zero]
    simp only [show ¬ (1 ≤ 0) by omega, decide_False, Bool.false_and, Bool.false_eq_true,
      if_false]
    apply List.filter_congr
    intro x hx
    have := List.le_fst_of_mem_enumFrom hx
    simp [this]

theorem watchjobs_eq (c : ShellH) (hc : c.Distinct) (which : Int) (sh : Shell)
    (hv : ∀ j job, 1 ≤ j → sh.jobs[j]? = some job → job.pgid ≠ 0 →
      valid_state c job.state ∧ job.proc ≠ []) :
    watchjobs c which sh
      = .ok { sh with
          jobs := sh.jobs.take BG ++ (sh.jobs.drop BG).map (slot_after c which)
          trace := sh.trace ++
            ((reported_slots c which sh.jobs).map
              (fun x => slot_line c x.1 x.2)).map Effect.print } := by
  have hv1 : ∀ job ∈ sh.jobs.drop BG, job.pgid ≠ 0 →
      valid_state c job.state ∧ job.proc ≠ [] := by
    intro job hjob
    obtain ⟨i, hi⟩ := List.mem_iff_getElem?.1 hjob
    rw [List.getElem?_drop] at hi
    exact hv (BG + i) job (by simp only [BG]; omega) hi
  have hw := watch_from_eq c hc which BG (sh.jobs.drop BG) hv1
  simp only [watchjobs, hw, reported_slots_eq]

/-- C5: `watchjobs(which)` returns and prints, in increasing slot order, exactly
one line for each non-free background slot `j >= 1` whose state matches
`which` (every non-free one when `which` is ALL): the running, suspended,
exited (with the 8-bit exit code) or killed (with the signal number) line of
the specification. It frees exactly the reported slots that are FINISHED and
leaves every other slot, slot 0 included, unchanged. -/
theorem watchjobs_reports_and_frees (c : ShellH) (hc : c.Distinct) (which : Int)
    (sh : Shell)
    (hv : ∀ j job, 1 ≤ j → sh.jobs[j]? = some job → job.pgid ≠ 0 →
      valid_state c job.state ∧ job.proc ≠ []) :
    ∃ sh1 lines, watchjobs c which sh = .ok sh1 ∧
      sh1.trace = sh.trace ++ lines.map Effect.print ∧
      List.Forall₂ (line_ok c) (reported_slots c which sh.jobs) lines ∧
      sh1.jobs.length = sh.jobs.length ∧
      ∀ j job, sh.jobs[j]? = some job →
        sh1.jobs[j]? = some
          (if 1 ≤ j ∧ reported c which job ∧ job.state = c.FINISHED then
            { job with pgid := 0, proc := [], command := none }
          else job) := by
  refine ⟨_, (reported_slots c which sh.jobs).map (fun x => slot_line c x.1 x.2),
    watchjobs_eq c hc which sh hv, rfl, ?_, ?_, ?_⟩
  · rw [List.forall₂_map_right_iff, List.forall₂_same]
    intro x _
    exact slot_line_ok c hc x.1 x.2
  · simp only [List.length_append, List.length_take, List.length_map, List.length_drop, BG]
    omega
  · intro j job hj
    have hlt := (List.getElem?_eq_some_iff.1 hj).1
    cases j with
    | zero =>
      simp only [show ¬ (1 ≤ 0) by omega, false_and, if_false]
      rw [List.getElem?_append_left (by simp only [List.length_take, BG]; omega),
        List.getElem?_take_of_lt (by simp only [BG]; omega)]
      exact hj
    | succ i =>
      rw [List.getElem?_append_right (by simp only [List.length_take, BG]; omega)]
      simp only [List.length_take, BG, List.getElem?_map, List.getElem?_drop]
      rw [show 1 + (i + 1 - min 1 sh.jobs.length) = i + 1 by omega, hj]
      simp only [Option.map_some', slot_after, show 1 ≤ i + 1 by omega, true_and]

/-- Witness of C4: the foreground job is stopped (status 0x147f) during the
first suspension. -/
theorem monitorjob_returns_with_foreground_free_witness :
    ∃ ret sh1, monitorjob shellh [⟨9, [(100, 5247)]⟩] sh_fg = .ok (ret, sh1) ∧
      ∃ s0, sh1.jobs[FG]? = some s0 ∧ s0.pgid = 0 :=
  match monitorjob_returns_with_foreground_free shellh (by decide) [⟨9, [(100, 5247)]⟩] 1
      sh_fg job_sleep rfl (by decide) (by decide) (by decide)
      (fun i hi => by
        have h0 : i = 0 := by omega
        subst h0
        rfl)
      (by decide) with
  | ⟨_, _, ret, sh1, _, _, _, _, hm, hfree, _⟩ => ⟨ret, sh1, hm, hfree⟩

/-- Witness of C5: `watchjobs(ALL)` on a table with four background jobs. -/
theorem watchjobs_reports_and_frees_witness :
    ∃ sh1 lines, watchjobs shellh (-1) sh_bg = .ok sh1 ∧
      sh1.trace = sh_bg.trace ++ lines.map Effect.print ∧
      List.Forall₂ (line_ok shellh) (reported_slots shellh (-1) sh_bg.jobs) lines :=
  match watchjobs_reports_and_frees shellh (by decide) (-1) sh_bg
      (fun j job _ h hfree =>
        (by decide : ∀ job ∈ sh_bg.jobs, job.pgid ≠ 0 →
            valid_state shellh job.state ∧ job.proc ≠ [])
          job (List.mem_iff_getElem?.2 ⟨j, h⟩) hfree) with
  | ⟨sh1, lines, h1, h2, h3, _⟩ => ⟨sh1, lines, h1, h2, h3⟩

/-! ### Redirections -/

theorem do_redir_loop_pending (fds : token_t → Bool → Int) (ts : List token_t)
    (mode : token_t) (n : Nat) (r : Redir)
    (hm : mode = token_t.T_INPUT ∨ mode = token_t.T_OUTPUT) :
    (do_redir_loop fds ts mode n r).1 = n := by
  induction ts generalizing mode r with
  | nil => rfl
  | cons t ts ih =>
    by_cases ht : t ≠ token_t.T_INPUT ∧ t ≠ token_t.T_OUTPUT
    · rcases hm with hm | hm
      · subst hm
        simp only [do_redir_loop, if_pos ht, if_true]
        exact ih _ _ (Or.inl rfl)
      · subst hm
        simp only [do_redir_loop, if_pos ht, if_true,
          show ¬ (token_t.T_OUTPUT = token_t.T_INPUT) by decide, if_false]
        exact ih _ _ (Or.inr rfl)
    · simp only [do_redir_loop, if_neg ht]
      apply ih
      by_cases h1 : t = token_t.T_INPUT
      · exact Or.inl h1
      · by_cases h2 : t = token_t.T_OUTPUT
        · exact Or.inr h2
        · exact absurd ⟨h1, h2⟩ ht

theorem do_redir_loop_words (fds : token_t → Bool → Int) (pre rest : List token_t)
    (n : Nat) (r : Redir)
    (hpre : ∀ t ∈ pre, t ≠ token_t.T_INPUT ∧ t ≠ token_t.T_OUTPUT) :
    do_redir_loop fds (pre ++ rest) token_t.NULL n r
      = do_redir_loop fds rest token_t.NULL (n + pre.length) r := by
  induction pre generalizing n with
  | nil => rfl
  | cons t pre ih =>
    have ht := hpre t (List.mem_cons_self t pre)
    simp only [List.cons_append, do_redir_loop, if_pos ht,
      show ¬ (token_t.NULL = token_t.T_INPUT) by decide,
      show ¬ (token_t.NULL = token_t.T_OUTPUT) by decide, if_false]
    have h := ih (n + 1) (fun u hu => hpre u (List.mem_cons_of_mem t hu))
    rw [show n + (t :: pre).length = n + 1 + pre.length by
      simp only [List.length_cons]; omega]
    exact h

/-- What `do_redir` counts: only the tokens before the first redirection
operator; no token after it is counted, whatever follows. -/
theorem do_redir_counts_leading_tokens (fds : token_t → Bool → Int)
    (pre rest : List token_t) (op : token_t) (r : Redir)
    (hpre : ∀ t ∈ pre, t ≠ token_t.T_INPUT ∧ t ≠ token_t.T_OUTPUT)
    (hop : op = token_t.T_INPUT ∨ op = token_t.T_OUTPUT) :
    (do_redir fds (pre ++ op :: rest ++ [token_t.NULL])
      (pre.length + 1 + rest.length) r).1 = pre.length := by
  have htake : (pre ++ op :: rest ++ [token_t.NULL]).take (pre.length + 1 + rest.length)
      = pre ++ op :: rest := by
    have hlen : pre.length + 1 + rest.length = (pre ++ op :: rest).length := by
      simp only [List.length_append, List.length_cons]; omega
    rw [hlen, List.append_assoc, ← List.append_assoc pre, List.take_left']
    simp
  simp only [do_redir, htake]
  rw [do_redir_loop_words fds pre (op :: rest) 0 r hpre]
  have hnot : ¬ (op ≠ token_t.T_INPUT ∧ op ≠ token_t.T_OUTPUT) := by
    rcases hop with h | h <;> simp [h]
  simp only [do_redir_loop, if_neg hnot, Nat.zero_add]
  exact do_redir_loop_pending fds rest op pre.length r hop

/-- C6 (the code at the failing input `cmd < in arg`): `do_redir` returns 1
and leaves `[cmd, NULL, in, arg, NULL]` in the array, and it opens both `in`
and `arg` for reading (closing the descriptor of `in` again), whereas the
surviving tokens of the specification are `[cmd, arg]`, two of them. -/
theorem do_redir_between_arguments :
    do_redir (fun _ _ => 3)
        [token_t.word "cmd", token_t.T_INPUT, token_t.word "in", token_t.word "arg",
          token_t.NULL] 4
        { input := -1, output := -1, opened := [], closed := [] }
      = (1,
         [token_t.word "cmd", token_t.NULL, token_t.word "in", token_t.word "arg",
           token_t.NULL],
         { input := 3, output := -1,
           opened := [(token_t.word "in", false), (token_t.word "arg", false)],
           closed := [3] }) ∧
    surviving [token_t.word "cmd", token_t.T_INPUT, token_t.word "in", token_t.word "arg"]
      = [token_t.word "cmd", token_t.word "arg"] :=
  ⟨rfl, rfl⟩

/-! ### Terminal attributes of a stopped foreground job -/

/-- C7 (the code at the failing input): the foreground job of `sh_fg` has the
stored attributes 5 and stops while the terminal has the attributes `t`.
Whatever `t` is, the slot the job is moved to keeps the stored value 5, and
the terminal is written (`Tcsetattr`) with that stored value instead of being
read. -/
theorem monitorjob_stop_writes_terminal :
    ∀ t : termios,
      (Sigsuspend shellh ⟨t, [(100, 5247)]⟩ sh_fg).tty = t ∧
      ∃ sh1, monitorjob shellh [⟨t, [(100, 5247)]⟩] sh_fg = .ok (0, sh1) ∧
        sh1.jobs = [zero_job,
          { pgid := 100, proc := [⟨100, 2, -1⟩], tmodes := 5, state := 2,
            command := some "sleep 5" }] ∧
        sh1.trace = [Effect.tcsetattr 5, Effect.tcsetpgrp 1, Effect.tcsetattr 5] :=
  fun _ => ⟨rfl, _, rfl, rfl, rfl⟩

/-! ### A foreground job killed by a signal -/

/-- C8 (counterexample): `sleep 5` is launched in the foreground as pid 100 and
killed by SIGINT (raw status 2, for which WIFSIGNALED holds and WTERMSIG is 2).
`do_job` returns the raw status, and nothing at all is printed by `monitorjob`
and the following `watchjobs(FINISHED)`. -/
theorem foreground_kill_prints_nothing :
    WIFSIGNALED 2 = true ∧ WTERMSIG 2 = 2 ∧
    (∃ sh1, do_job_parent shellh 100 false ["sleep", "5"] [⟨5, [(100, 2)]⟩] sh_init
        = .ok (2, sh1)) ∧
    ∃ sh2, main_round shellh 100 false ["sleep", "5"] [⟨5, [(100, 2)]⟩] sh_init = .ok sh2 ∧
      sh2.output = [] :=
  ⟨rfl, rfl, ⟨_, rfl⟩, _, rfl, rfl⟩

theorem output_eq (sh : Shell) :
    sh.output = sh.trace.filterMap (fun e => match e with
      | Effect.print l => some l
      | _ => none) := rfl

theorem output_Tcsetattr (t : termios) (sh : Shell) : (Tcsetattr t sh).output = sh.output := by
  simp [output_eq, Tcsetattr, List.filterMap_append]

theorem output_setfgpgrp (pgid : Int) (sh : Shell) : (setfgpgrp pgid sh).output = sh.output := by
  simp [output_eq, setfgpgrp, Tcsetpgrp, List.filterMap_append]

theorem output_Kill (pid sig : Int) (sh : Shell) : (Kill pid sig sh).output = sh.output := by
  simp [output_eq, Kill, List.filterMap_append]

theorem filterMap_prints (lines : List String) :
    (lines.map Effect.print).filterMap (fun e => match e with
      | Effect.print l => some l
      | _ => none) = lines := by
  induction lines with
  | nil => rfl
  | cons a l ih => simp [List.filterMap_cons, ih]

theorem reported_slots_set_fg (c : ShellH) (which : Int) (jobs : List job_t) (x : job_t) :
    reported_slots c which (jobs.set FG x) = reported_slots c which jobs := by
  rw [reported_slots_eq, reported_slots_eq]
  cases jobs with
  | nil => rfl
  | cons a l => rfl

theorem launch_fg (c : ShellH) (pid : Int) (argv : List String) (sh shl : Shell)
    (hl : addproc c FG pid argv (addjob c pid false sh).2 = .ok shl) :
    ∃ fg, shl.jobs[FG]? = some fg ∧ fg.proc ≠ [] ∧ fg.state = c.RUNNING ∧
      shl.trace = sh.trace := by
  cases hjobs : sh.jobs with
  | nil =>
    simp [addproc, addjob, hjobs, FG] at hl
  | cons a l =>
    cases argv with
    | nil => simp [addproc, addjob, hjobs, FG, mkcommand] at hl
    | cons x xs =>
      simp only [addproc, addjob, hjobs, FG, mkcommand, Bool.false_eq_true, if_false,
        List.set_cons_zero, List.getElem?_cons_zero, Except.ok.injEq] at hl
      subst hl
      exact ⟨_, List.getElem?_cons_zero, by simp, rfl, rfl⟩

theorem do_job_parent_fg (c : ShellH) (pid : Int) (argv : List String) (ws : List Wakeup)
    (sh shl : Shell) (hl : addproc c FG pid argv (addjob c pid false sh).2 = .ok shl) :
    do_job_parent c pid false argv ws sh = monitorjob c ws shl := by
  have h1 : (addjob c pid false sh).1 = FG := rfl
  simp only [do_job_parent, h1, hl]
  rfl

/-- C8 (as amended): a foreground job is launched by `do_job` and, after `k`
suspensions, found FINISHED with a last-process status that encodes
termination by signal `n`. Then `do_job` returns exactly that raw status
(WIFSIGNALED holds for it and WTERMSIG is `n`), slot 0 is freed (the table is
the one the reaper left with slot 0 freed) and nothing is printed by it; the
lines printed up to the next prompt are exactly the reports of
`watchjobs(FINISHED)` for the non-free FINISHED background slots `j >= 1`:
the foreground job gets no line. -/
theorem foreground_kill_is_returned_not_printed (c : ShellH) (hc : c.Distinct)
    (pid : Int) (argv : List String) (ws : List Wakeup) (k : Nat) (sh shl : Shell)
    (job : job_t) (p : proc_t) (n : Int)
    (hl : addproc c FG pid argv (addjob c pid false sh).2 = .ok shl)
    (hk : k ≤ ws.length)
    (hrun : ∀ i, i < k → (Shell.after c (ws.take i) shl).fg_state = some c.RUNNING)
    (hjob : (Shell.after c (ws.take k) shl).jobs[FG]? = some job)
    (hfin : job.state = c.FINISHED) (hlast : job.proc.getLast? = some p)
    (hsig : WIFSIGNALED p.exitcode = true) (hn : WTERMSIG p.exitcode = n)
    (hv : ∀ j b, 1 ≤ j → (Shell.after c (ws.take k) shl).jobs[j]? = some b → b.pgid ≠ 0 →
      valid_state c b.state ∧ b.proc ≠ []) :
    ∃ ret sh1 sh2 lines,
      do_job_parent c pid false argv ws sh = .ok (ret, sh1) ∧
      ret = p.exitcode ∧ WIFSIGNALED ret = true ∧ WTERMSIG ret = n ∧
      sh1.jobs = (Shell.after c (ws.take k) shl).jobs.set FG
        { job with pgid := 0, proc := [], command := none } ∧
      (∃ s0, sh1.jobs[FG]? = some s0 ∧ s0.pgid = 0) ∧
      sh1.output = sh.output ∧
      main_round c pid false argv ws sh = .ok sh2 ∧
      sh2.output = sh.output ++ lines ∧
      List.Forall₂ (line_ok c)
        (reported_slots c c.FINISHED (Shell.after c (ws.take k) shl).jobs) lines := by
  obtain ⟨fg, hfg, hp, hst, htr⟩ := launch_fg c pid argv sh shl hl
  have hend : (Shell.after c (ws.take k) shl).fg_state ≠ some c.RUNNING := by
    rw [fg_state_of_get _ job hjob, hfin]
    exact fun h => hc.2.1 (Option.some.inj h).symm
  obtain ⟨job1, p1, hjob1, hlast1, -, -, hF, -⟩ :=
    monitorjob_spec c hc ws k shl fg hfg hp (Or.inl hst) hk hrun hend
  have hje : job1 = job := Option.some.inj (hjob1.symm.trans hjob)
  subst hje
  have hpe : p1 = p := Option.some.inj (hlast1.symm.trans hlast)
  subst hpe
  have hm := hF hfin
  have hdo := (do_job_parent_fg c pid argv ws sh shl hl).trans hm
  have htrT : (Shell.after c (ws.take k) shl).trace = sh.trace := by
    rw [(after_fields c (ws.take k) shl).2.2.1, htr]
  generalize Shell.after c (ws.take k) shl = T at hjob hv hdo htrT ⊢
  have hout1 : (Tcsetattr T.shell_tmodes (setfgpgrp T.pgrp
      { T with
        jobs := T.jobs.set FG { job1 with pgid := 0, proc := [], command := none } })).output = sh.output := by
    rw [output_Tcsetattr, output_setfgpgrp, output_eq, output_eq]
    show List.filterMap _ T.trace = _
    rw [htrT]
  have hw := watchjobs_eq c hc c.FINISHED
    (Tcsetattr T.shell_tmodes (setfgpgrp T.pgrp
      { T with
        jobs := T.jobs.set FG { job1 with pgid := 0, proc := [], command := none } }))
    (by
      intro j b hj hb
      have hb1 : (T.jobs.set FG
          ({ job1 with pgid := 0, proc := [], command := none }))[j]? = some b := hb
      rw [List.getElem?_set_ne (by simp only [FG]; omega)] at hb1
      exact hv j b hj hb1)
  have hmr := (by simp only [main_round, hdo] :
    main_round c pid false argv ws sh = watchjobs c c.FINISHED _).trans hw
  have hlenT : FG < T.jobs.length := (List.getElem?_eq_some_iff.1 hjob).1
  have hslot : (T.jobs.set FG { job1 with pgid := 0, proc := [], command := none })[FG]?
      = some { job1 with pgid := 0, proc := [], command := none } :=
    List.getElem?_set_self hlenT
  refine ⟨p1.exitcode, _, _,
    (reported_slots c c.FINISHED T.jobs).map (fun x => slot_line c x.1 x.2),
    hdo, rfl, hsig, hn, rfl, ⟨_, hslot, rfl⟩, hout1, hmr, ?_, ?_⟩
  · rw [output_eq]
    show List.filterMap _ (_ ++ List.map Effect.print _) = _
    rw [List.filterMap_append, filterMap_prints, ← output_eq, hout1]
    show _ ++ List.map _ (reported_slots c c.FINISHED (T.jobs.set FG _)) = _
    rw [reported_slots_set_fg]
  · rw [List.forall₂_map_right_iff, List.forall₂_same]
    intro x _
    exact slot_line_ok c hc x.1 x.2

/-- Witness of C8 (as amended): `sleep 5` in the foreground, killed by SIGINT. -/
theorem foreground_kill_is_returned_not_printed_witness :
    ∃ ret sh1 sh2 lines,
      do_job_parent shellh 100 false ["sleep", "5"] [⟨5, [(100, 2)]⟩] sh_init
        = .ok (ret, sh1) ∧
      ret = 2 ∧ WIFSIGNALED ret = true ∧ WTERMSIG ret = 2 ∧
      sh1.jobs = (Shell.after shellh ([⟨5, [(100, 2)]⟩].take 1)
          { sh_init with jobs := [job_sleep] }).jobs.set FG
        { pgid := 0, proc := [], tmodes := 5, state := 0, command := none } ∧
      (∃ s0, sh1.jobs[FG]? = some s0 ∧ s0.pgid = 0) ∧
      sh1.output = sh_init.output ∧
      main_round shellh 100 false ["sleep", "5"] [⟨5, [(100, 2)]⟩] sh_init = .ok sh2 ∧
      sh2.output = sh_init.output ++ lines ∧
      List.Forall₂ (line_ok shellh)
        (reported_slots shellh shellh.FINISHED
          (Shell.after shellh ([⟨5, [(100, 2)]⟩].take 1)
            { sh_init with jobs := [job_sleep] }).jobs) lines :=
  foreground_kill_is_returned_not_printed shellh (by decide) 100 ["sleep", "5"]
    [⟨5, [(100, 2)]⟩] 1 sh_init { sh_init with jobs := [job_sleep] }
    { job_sleep with state := 0, proc := [⟨100, 0, 2⟩] } ⟨100, 0, 2⟩ 2
    rfl (by decide)
    (fun i hi => by
      have h0 : i = 0 := by omega
      subst h0
      rfl)
    rfl rfl rfl rfl rfl
    (fun j b hj h => by
      have hlt : j < 1 := (List.getElem?_eq_some_iff.1 h).1
      omega)

/-! ### Resume -/

end SoShell
